import Mathlib

/-!
# fin-view: the directory monitor (`src/dirmon/dirmon.cpp`)

A shallow embedding of the directory-change monitor, followed by the scoring
function of the file search (`src/filesearch/filesearch.cpp`).  The process-wide
variables of `dirmon.cpp` become the fields of one record, `Monitor`, that
every operation takes and returns; the two output streams are lists of the
lines written to them.  System calls are replaced by their results: a
directory is a value that says what `opendir`, `inotify_add_watch`,
`readdir` and `stat` answer for it, and the clock is the broken-down time
that `localtime` hands to `strftime`.
-/

/-! ## Integer conversions of the C++ code

`int` has 32 bits and `size_t` 64. -/

namespace Cxx

/-- The conversion of an `int` to `size_t`, written or implicit:
`static_cast<size_t>(x)`. -/
def to_size_t (x : Int) : Nat := (x % 2 ^ 64).toNat

/-- The conversion of a `size_t` value to `int` (two's complement). -/
def to_int (x : Nat) : Int :=
  if x % 2 ^ 32 < 2 ^ 31 then ((x % 2 ^ 32 : Nat) : Int)
  else ((x % 2 ^ 32 : Nat) : Int) - 2 ^ 32

end Cxx

/-! ## `std::string` operations used by both programs

A `String` stands for a `std::string`, one `Char` per `char`. -/

namespace StdString

/-- Search for `pattern` in the characters of a string from the current
position `pos` onwards: the position of the first occurrence, `none` for
`npos`. -/
def find_from (pattern : List Char) : List Char → Nat → Option Nat
  | [], pos => if pattern = [] then some pos else none
  | c :: rest, pos =>
    if pattern.isPrefixOf (c :: rest) then some pos
    else find_from pattern rest (pos + 1)

/-- The call `str.find(pattern)` of `std::string`; `none` is
`std::string::npos`. -/
def find (str pattern : String) : Option Nat :=
  find_from pattern.data str.data 0

/-- The call `str.substr(0, count)` of `std::string`: the first `count`
characters, or the whole string when it is shorter. -/
def substr0 (str : String) (count : Nat) : String :=
  ⟨str.data.take count⟩

end StdString

namespace Dirmon

/-! ## Process-wide state -/

/-- Capacity of the in-memory history: `size_t max_log_lines = 1000;`
(dirmon.cpp:22).  Nothing in the program assigns to it. -/
def max_log_lines : Nat := 1000

/-- The globals of dirmon.cpp (lines 19-23) together with the two standard
streams.  `log_file` is `none` while the `std::ofstream` is not open and
`some ls` once it is, `ls` being the lines written so far.
`watch_descriptors` is the `std::map<int, std::string>` as an association
list with unique keys. -/
structure Monitor where
  use_curses : Bool
  log_file : Option (List String)
  watch_descriptors : List (Int × String)
  log_history : List String
  stdout : List String
  stderr : List String
deriving DecidableEq, Repr

/-! ## Log sink -/

/-- Embedding of `log_message` (dirmon.cpp:210-224): push the line on the
history, erase the first entry when the size exceeds `max_log_lines`, write
the line to the log file when it is open, and to standard output unless the
curses view is active. -/
def log_message (message : String) (s : Monitor) : Monitor :=
  let pushed := s.log_history ++ [message]
  let history := if pushed.length > max_log_lines then pushed.tail else pushed
  let file := match s.log_file with
    | some written => some (written ++ [message])
    | none => none
  let out := if !s.use_curses then s.stdout ++ [message] else s.stdout
  { s with log_history := history, log_file := file, stdout := out }

/-- A sequence of lines passed one by one to `log_message`, first line
first. -/
def log_messages (lines : List String) (s : Monitor) : Monitor :=
  lines.foldl (fun acc line => log_message line acc) s

/-! ## Watch table

`watch_descriptors` is only ever used through `operator[]`, once to read
(dirmon.cpp:122) and once to assign (dirmon.cpp:188). -/

/-- Lookup that does not modify the map (`std::map::find`): the path stored
under handle `wd`, if there is one. -/
def map_find (table : List (Int × String)) (wd : Int) : Option String :=
  match table with
  | [] => none
  | (key, path) :: rest => if key = wd then some path else map_find rest wd

/-- The assignment `table[wd] = path`: the entry of an existing key is
overwritten, a new key gets a new entry. -/
def map_assign (table : List (Int × String)) (wd : Int) (path : String) :
    List (Int × String) :=
  match table with
  | [] => [(wd, path)]
  | (key, old) :: rest =>
    if key = wd then (wd, path) :: rest else (key, old) :: map_assign rest wd path

/-- Reading `table[wd]` as an rvalue.  `std::map::operator[]` inserts a
value-initialised element (the empty string) when the key is absent and
returns a reference to it, so the read yields a value and a table. -/
def map_index (table : List (Int × String)) (wd : Int) :
    String × List (Int × String) :=
  match map_find table wd with
  | some path => (path, table)
  | none => ("", map_assign table wd "")

/-! ## Directories as seen through the system calls -/

mutual
/-- One directory, described by what the system calls of
`add_watch_recursive` answer for it: whether `opendir` succeeds, the value
`inotify_add_watch` returns for it (negative: refused), and what `readdir`
then enumerates. -/
inductive DirNode where
  | mk (can_open : Bool) (wd : Int) (entries : DirEntries)
/-- The entries `readdir` returns, in order.  `subdir` is an entry for which
`stat(full_path) == 0 && S_ISDIR(st.st_mode)` holds, carrying the directory
found there; `other` is any entry for which it does not. -/
inductive DirEntries where
  | nil
  | other (d_name : String) (rest : DirEntries)
  | subdir (d_name : String) (node : DirNode) (rest : DirEntries)
end

/-! ## Recursive watch installer -/

mutual
/-- Embedding of `add_watch_recursive` (dirmon.cpp:175-208).  A `throw`
is `Except.error` with the `what()` string; both `throw`s precede every
assignment of the call, so a failed call returns no state. -/
def add_watch_recursive (path : String) : DirNode → Monitor → Except String Monitor
  | .mk can_open wd entries, s =>
    if !can_open then
      .error ("Could not open directory: " ++ path)
    else if wd < 0 then
      .error ("Could not add watch for: " ++ path)
    else
      .ok (read_entries path entries
        { s with watch_descriptors := map_assign s.watch_descriptors wd path })
/-- The `readdir` loop of `add_watch_recursive` (dirmon.cpp:190-205): skip
`.` and `..`, recurse into every entry that `stat` reports as a directory,
and turn an exception of the recursive call into a line on `std::cerr`. -/
def read_entries (path : String) : DirEntries → Monitor → Monitor
  | .nil, s => s
  | .other _ rest, s => read_entries path rest s
  | .subdir d_name node rest, s =>
    if d_name = "." ∨ d_name = ".." then
      read_entries path rest s
    else
      match add_watch_recursive (path ++ "/" ++ d_name) node s with
      | .ok s' => read_entries path rest s'
      | .error what =>
        read_entries path rest { s with stderr := s.stderr ++ ["Warning: " ++ what] }
end

/-! ## Clock -/

/-- The fields of `struct tm` that the format of `get_current_time` reads,
as `localtime` fills them: `tm_mon` counts from 0 and `tm_year` from 1900. -/
structure Tm where
  tm_sec : Nat
  tm_min : Nat
  tm_hour : Nat
  tm_mday : Nat
  tm_mon : Nat
  tm_year : Nat
deriving DecidableEq, Repr

/-- The conversions `%m %d %H %M %S` of `strftime`: a decimal number padded
with a zero to two digits. -/
def two_digits (n : Nat) : String :=
  if n < 10 then "0" ++ toString n else toString n

/-- Embedding of `get_current_time` (dirmon.cpp:226-235): the broken-down
local time rendered with `"[%Y-%m-%d %H:%M:%S]"`. -/
def get_current_time (timeinfo : Tm) : String :=
  "[" ++ toString (timeinfo.tm_year + 1900) ++ "-" ++ two_digits (timeinfo.tm_mon + 1)
    ++ "-" ++ two_digits timeinfo.tm_mday ++ " " ++ two_digits timeinfo.tm_hour
    ++ ":" ++ two_digits timeinfo.tm_min ++ ":" ++ two_digits timeinfo.tm_sec ++ "]"

/-! ## Event decoder (the inner loop of `main`) -/

/-- Event bits of `<sys/inotify.h>` (Linux). -/
def IN_MODIFY : Nat := 0x00000002
def IN_ATTRIB : Nat := 0x00000004
def IN_MOVED_FROM : Nat := 0x00000040
def IN_MOVED_TO : Nat := 0x00000080
def IN_CREATE : Nat := 0x00000100
def IN_DELETE : Nat := 0x00000200
def IN_ISDIR : Nat := 0x40000000

/-- One record of the buffer filled by `read`: `struct inotify_event`.
`len` is the size of the name field and `name` the C string read from it
by `std::string filename = event->name`. -/
structure inotify_event where
  wd : Int
  mask : Nat
  len : Nat
  name : String
deriving DecidableEq, Repr

/-- What the system answers while one record is processed: the local time
read by `get_current_time` and, for a path, the directory that `opendir`,
`inotify_add_watch`, `readdir` and `stat` find there. -/
structure Env where
  timeinfo : Tm
  dir_at : String → DirNode

/-- The `if` / `else if` chain of dirmon.cpp:127-149: it chooses
`event_type` and, in its first branch, installs watches on a directory that
was just created.  The result is the chosen `event_type` and the state the
chain leaves. -/
def classify_event (env : Env) (mask : Nat) (fullpath : String) (s : Monitor) :
    String × Monitor :=
  if mask &&& IN_CREATE ≠ 0 then
    ("CREATED",
      if mask &&& IN_ISDIR ≠ 0 then
        match add_watch_recursive fullpath (env.dir_at fullpath) s with
        | .ok s' => s'
        | .error what => log_message ("Error adding watch: " ++ what) s
      else s)
  else if mask &&& IN_DELETE ≠ 0 then ("DELETED", s)
  else if mask &&& IN_MODIFY ≠ 0 then ("MODIFIED", s)
  else if mask &&& IN_MOVED_FROM ≠ 0 then ("MOVED_FROM", s)
  else if mask &&& IN_MOVED_TO ≠ 0 then ("MOVED_TO", s)
  else if mask &&& IN_ATTRIB ≠ 0 then ("ATTRIBUTES_CHANGED", s)
  else ("UNKNOWN", s)

/-- Line 151: `(event->mask & IN_ISDIR) ? "directory" : "file"`. -/
def dir_or_file (mask : Nat) : String :=
  if mask &&& IN_ISDIR ≠ 0 then "directory" else "file"

/-- The body of the inner `while (i < length)` loop for one record
(dirmon.cpp:119-156). -/
def process_event (env : Env) (event : inotify_event) (s : Monitor) : Monitor :=
  if event.len ≠ 0 then
    let looked := map_index s.watch_descriptors event.wd
    let path := looked.1
    let filename := event.name
    let fullpath := path ++ "/" ++ filename
    let chain := classify_event env event.mask fullpath
      { s with watch_descriptors := looked.2 }
    let event_type := chain.1
    let message := get_current_time env.timeinfo ++ " " ++ event_type ++ " "
      ++ dir_or_file event.mask ++ ": " ++ fullpath
    log_message message chain.2
  else s

/-- The inner loop over the records of one `read` (dirmon.cpp:117-157);
every record comes with the answers the system gives while it is
processed. -/
def process_batch (records : List (Env × inotify_event)) (s : Monitor) : Monitor :=
  records.foldl (fun acc r => process_event r.1 r.2 acc) s

/-! ## Display renderer -/

/-- One call `mvprintw(y, x, "%s", text)`. -/
structure Print where
  y : Nat
  x : Int
  text : String
deriving DecidableEq, Repr

/-- What one iteration of the loop of `update_curses_display` does: the row
`line`, the history entry `entry` it is about, the colour pair switched on
by `attron` (0 when no `attron` is executed), and the `mvprintw` calls in
order. -/
structure DrawnEntry where
  line : Nat
  entry : String
  pair : Nat
  prints : List Print
deriving DecidableEq, Repr

/-- The frame built by one call of `update_curses_display`: the title
printed in bold on row 0, the length of the rule drawn by `mvhline` on row 1,
and what the loop draws. -/
structure Frame where
  title : Print
  rule_length : Int
  entries : List DrawnEntry
deriving DecidableEq, Repr

/-- The colour selection of dirmon.cpp:284-294: the first keyword found in
the entry decides the pair. -/
def color_pair (entry : String) : Nat :=
  if StdString.find entry "CREATED" ≠ none then 1
  else if StdString.find entry "DELETED" ≠ none then 2
  else if StdString.find entry "MODIFIED" ≠ none then 3
  else if StdString.find entry "MOVED" ≠ none then 4
  else if StdString.find entry "ATTRIBUTES" ≠ none then 5
  else 0

/-- The `mvprintw` calls of dirmon.cpp:296-301 for one entry. -/
def entry_prints (line : Nat) (entry : String) (max_x : Int) : List Print :=
  if entry.length > Cxx.to_size_t max_x then
    [⟨line, 0, StdString.substr0 entry (Cxx.to_size_t (max_x - 3))⟩, ⟨line, max_x - 3, "..."⟩]
  else
    [⟨line, 0, entry⟩]

/-- The `for` loop of dirmon.cpp:281-304 from the entry `log_history[i]`
onwards: `remaining` are the entries from index `i` to the end, `line` is
the row counter. -/
def draw_loop (max_y max_x : Int) : List String → Nat → List DrawnEntry
  | [], _ => []
  | entry :: remaining, line =>
    if line < Cxx.to_size_t (max_y - 1) then
      ⟨line, entry, color_pair entry, entry_prints line entry max_x⟩
        :: draw_loop max_y max_x remaining (line + 1)
    else []

/-- Embedding of `update_curses_display` (dirmon.cpp:265-307) for a terminal
of `max_y` rows and `max_x` columns, as `getmaxyx` reports them. -/
def update_curses_display (max_y max_x : Int) (s : Monitor) : Frame :=
  let display_lines := max_y - 3
  let start_idx :=
    if s.log_history.length > Cxx.to_size_t display_lines then
      s.log_history.length - Cxx.to_size_t display_lines
    else 0
  { title := ⟨0, 0, "Directory Monitor - Press Ctrl+C to exit"⟩,
    rule_length := max_x,
    entries := draw_loop max_y max_x (s.log_history.drop start_idx) 2 }

/-! ## Vocabulary of the specification -/

/-- The precedence table of the specification: the event bits in the order
Created, Deleted, Modified, MovedFrom, MovedTo, AttributesChanged, each with
the kind it stands for. -/
def kind_precedence : List (Nat × String) :=
  [(IN_CREATE, "CREATED"), (IN_DELETE, "DELETED"), (IN_MODIFY, "MODIFIED"),
   (IN_MOVED_FROM, "MOVED_FROM"), (IN_MOVED_TO, "MOVED_TO"),
   (IN_ATTRIB, "ATTRIBUTES_CHANGED")]

/-- First-match decoding as the specification words it: the kind of the
first entry of `kind_precedence` whose bit is set in the mask, `UNKNOWN`
when there is none. -/
def first_matching_kind (mask : Nat) : String :=
  match kind_precedence.find? (fun entry => mask &&& entry.1 ≠ 0) with
  | some entry => entry.2
  | none => "UNKNOWN"

/-- The seven kinds a line can carry. -/
def all_kinds : List String :=
  ["CREATED", "DELETED", "MODIFIED", "MOVED_FROM", "MOVED_TO",
   "ATTRIBUTES_CHANGED", "UNKNOWN"]

/-- Two states present the same log sink: same mode, same log file, same
history, same standard output. -/
def same_sink (a b : Monitor) : Prop :=
  a.use_curses = b.use_curses ∧ a.log_file = b.log_file
    ∧ a.log_history = b.log_history ∧ a.stdout = b.stdout

/-- A line is timestamped when it begins with the bracketed time that
`get_current_time` returns while the record is processed. -/
def timestamped (env : Env) (line : String) : Bool :=
  (get_current_time env.timeinfo).data.isPrefixOf line.data

/-- The colour pair the specification gives to a kind: CREATED green (1),
DELETED red (2), MODIFIED yellow (3), MOVED_FROM and MOVED_TO blue (4),
ATTRIBUTES_CHANGED cyan (5), UNKNOWN the default (0, no pair). -/
def kind_pair (kind : String) : Nat :=
  if kind = "CREATED" then 1
  else if kind = "DELETED" then 2
  else if kind = "MODIFIED" then 3
  else if kind = "MOVED_FROM" ∨ kind = "MOVED_TO" then 4
  else if kind = "ATTRIBUTES_CHANGED" then 5
  else 0

/-- The keywords `update_curses_display` searches for, in the order it
searches. -/
def scan_keywords : List String :=
  ["CREATED", "DELETED", "MODIFIED", "MOVED", "ATTRIBUTES"]

/-- The keywords searched for before the keyword of a kind is reached; for
UNKNOWN, which has no keyword, all five. -/
def keywords_before (kind : String) : List String :=
  if kind = "CREATED" then []
  else if kind = "DELETED" then ["CREATED"]
  else if kind = "MODIFIED" then ["CREATED", "DELETED"]
  else if kind = "MOVED_FROM" ∨ kind = "MOVED_TO" then ["CREATED", "DELETED", "MODIFIED"]
  else if kind = "ATTRIBUTES_CHANGED" then ["CREATED", "DELETED", "MODIFIED", "MOVED"]
  else scan_keywords

/-! ## The directory tree behind a `DirNode` -/

mutual
/-- The directories of the tree rooted at `path`, each with the handle the
facility returns for it and its path (the root path joined with the names on
the way down by `/`), parents before children, children in `readdir` order.
The entries `.` and `..` are links, not members of the tree. -/
def node_dirs (path : String) : DirNode → List (Int × String)
  | .mk _ wd entries => (wd, path) :: entries_dirs path entries
/-- The directories of the trees below the entries of the directory
`path`. -/
def entries_dirs (path : String) : DirEntries → List (Int × String)
  | .nil => []
  | .other _ rest => entries_dirs path rest
  | .subdir d_name node rest =>
    if d_name = "." ∨ d_name = ".." then entries_dirs path rest
    else node_dirs (path ++ "/" ++ d_name) node ++ entries_dirs path rest
end

mutual
/-- The number of directories of the tree, `K` in the specification. -/
def count_dirs : DirNode → Nat
  | .mk _ _ entries => 1 + count_entries_dirs entries
/-- The number of directories in the trees below the entries. -/
def count_entries_dirs : DirEntries → Nat
  | .nil => 0
  | .other _ rest => count_entries_dirs rest
  | .subdir d_name node rest =>
    if d_name = "." ∨ d_name = ".." then count_entries_dirs rest
    else count_dirs node + count_entries_dirs rest
end

mutual
/-- Every directory of the tree can be opened and is granted a watch. -/
def node_ok : DirNode → Bool
  | .mk can_open wd entries => can_open && decide (0 ≤ wd) && entries_ok entries
/-- Every directory in the trees below the entries can be opened and is
granted a watch. -/
def entries_ok : DirEntries → Bool
  | .nil => true
  | .other _ rest => entries_ok rest
  | .subdir d_name node rest =>
    if d_name = "." ∨ d_name = ".." then entries_ok rest
    else node_ok node && entries_ok rest
end

/-- The assignments `table[wd] = path` made one after the other for a list
of directories, first directory first. -/
def assign_all (table : List (Int × String)) (dirs : List (Int × String)) :
    List (Int × String) :=
  dirs.foldl (fun acc d => map_assign acc d.1 d.2) table

/-- One listing followed by another. -/
def DirEntries.append : DirEntries → DirEntries → DirEntries
  | .nil, more => more
  | .other d_name rest, more => .other d_name (DirEntries.append rest more)
  | .subdir d_name node rest, more => .subdir d_name node (DirEntries.append rest more)

end Dirmon

/-! # fin-view: the file search (`src/filesearch/filesearch.cpp`)

Only the scoring function and the filter that `main` applies to its result
are embedded. -/

namespace Filesearch

/-- The function `::tolower` of `<cctype>` in the C locale: the capital
letters `A` to `Z` are mapped to `a` to `z`, every other character to
itself. -/
def tolower (c : Char) : Char := c.toLower

/-- The inner `while (str_idx < str_lower.size())` loop of
`fuzzy_match_score` (filesearch.cpp:389-399) for the pattern character `p`.
The list is `str_lower` from `str_idx` onwards; the result is `found`, the
new value of `consecutive`, and `str_lower` from the new `str_idx`
onwards. -/
def scan_for (p : Char) : List Char → Nat → Bool × Nat × List Char
  | [], consecutive => (false, consecutive, [])
  | c :: rest, consecutive =>
    if c = p then (true, (consecutive + 1) % 2 ^ 64, rest)
    else scan_for p rest 0

/-- The `for (char p : pattern_lower)` loop of `fuzzy_match_score`
(filesearch.cpp:386-406) with the `return score` that follows it.  In
`score += 10 + (consecutive * 5)` the sum is formed in `size_t` and converted
back to `int`. -/
def fuzzy_loop : List Char → List Char → Nat → Int → Int
  | [], _, _, score => score
  | p :: pattern_rest, str_rest, consecutive, score =>
    match scan_for p str_rest consecutive with
    | (false, _, _) => 0
    | (true, consecutive', str_rest') =>
      fuzzy_loop pattern_rest str_rest' consecutive'
        (Cxx.to_int ((Cxx.to_size_t score + (10 + consecutive' * 5)) % 2 ^ 64))

/-- Embedding of `fuzzy_match_score` (filesearch.cpp:368-408).  `800 - pos`
is formed in `size_t` and converted to the `int` that is returned. -/
def fuzzy_match_score (str pattern : String) : Int :=
  let str_lower := str.data.map tolower
  let pattern_lower := pattern.data.map tolower
  if str_lower = pattern_lower then 1000
  else
    match StdString.find_from pattern_lower str_lower 0 with
    | some pos => Cxx.to_int ((800 + 2 ^ 64 - pos) % 2 ^ 64)
    | none => fuzzy_loop pattern_lower str_lower 0 0

/-- The test `score > 0` under which `main` puts a file in the results
(filesearch.cpp:113-116). -/
def listed (name search_term : String) : Bool :=
  decide (fuzzy_match_score name search_term > 0)

/-- The lower-cased pattern is a subsequence, not necessarily contiguous, of
the lower-cased name. -/
def subsequence_match (name search_term : String) : Prop :=
  (search_term.data.map tolower).Sublist (name.data.map tolower)

end Filesearch

namespace Dirmon

/-! ## Theorems -/

theorem log_messages_nil (s : Monitor) : log_messages [] s = s := rfl

theorem log_messages_cons (line : String) (lines : List String) (s : Monitor) :
    log_messages (line :: lines) s = log_messages lines (log_message line s) := rfl

theorem log_messages_append (xs ys : List String) (s : Monitor) :
    log_messages (xs ++ ys) s = log_messages ys (log_messages xs s) := by
  simp [log_messages, List.foldl_append]

/-- One call keeps the history within the capacity and makes it the tail of
the pushed sequence. -/
theorem log_message_history (message : String) (s : Monitor)
    (h : s.log_history.length ≤ max_log_lines) :
    (log_message message s).log_history
      = (s.log_history ++ [message]).drop
          ((s.log_history ++ [message]).length - max_log_lines) := by
  unfold log_message
  simp only [List.length_append, List.length_singleton]
  by_cases hfull : s.log_history.length + 1 > max_log_lines
  · have hlen : s.log_history.length + 1 - max_log_lines = 1 := by omega
    simp [hfull, hlen]
  · have hlen : s.log_history.length + 1 - max_log_lines = 0 := by omega
    simp [hfull, hlen]

theorem log_messages_history (lines : List String) (s : Monitor)
    (h : s.log_history.length ≤ max_log_lines) :
    (log_messages lines s).log_history
      = (s.log_history ++ lines).drop
          ((s.log_history ++ lines).length - max_log_lines) := by
  induction lines generalizing s with
  | nil =>
    have hz : s.log_history.length - max_log_lines = 0 := by omega
    simp [log_messages_nil, hz]
  | cons line rest ih =>
    have hstep := log_message_history line s h
    have hbound : (log_message line s).log_history.length ≤ max_log_lines := by
      rw [hstep]
      simp only [List.length_drop, List.length_append, List.length_singleton]
      omega
    rw [log_messages_cons, ih _ hbound, hstep]
    by_cases hfull : s.log_history.length + 1 > max_log_lines
    · obtain ⟨x, tl, hx⟩ : ∃ x tl, s.log_history = x :: tl := by
        cases hs : s.log_history with
        | nil => rw [hs] at hfull; simp [max_log_lines] at hfull
        | cons x tl => exact ⟨x, tl, rfl⟩
      rw [hx] at hfull h ⊢
      simp only [List.length_cons] at hfull h
      have hl : tl.length + 1 = max_log_lines := by omega
      have e1 : (x :: tl ++ [line]).length - max_log_lines = 1 := by
        simp only [List.cons_append, List.length_cons, List.length_append,
          List.length_nil]
        omega
      rw [e1]
      simp only [List.cons_append, List.drop_succ_cons, List.drop_zero]
      have e2 : (tl ++ [line] ++ rest).length - max_log_lines = rest.length := by
        simp only [List.length_cons, List.length_append, List.length_nil]
        omega
      have e3 : (x :: (tl ++ line :: rest)).length - max_log_lines
          = rest.length + 1 := by
        simp only [List.length_cons, List.length_append]
        omega
      rw [e2, e3]
      simp only [List.drop_succ_cons, List.append_assoc, List.singleton_append]
    · have e1 : (s.log_history ++ [line]).length - max_log_lines = 0 := by
        simp only [List.length_cons, List.length_append, List.length_nil]
        omega
      rw [e1]
      simp only [List.drop_zero, List.append_assoc, List.singleton_append]

/-- C1 (bounded history).  Starting from an empty history, after any sequence
of `N` lines has been passed one by one to `log_message`, `log_history` holds
exactly `min N 1000` entries and they are the last `min N 1000` lines of the
sequence, in append order. -/
theorem C1_bounded_history (s : Monitor) (lines : List String) :
    (log_messages lines { s with log_history := [] }).log_history.length
        = min lines.length 1000
      ∧ (log_messages lines { s with log_history := [] }).log_history
        = lines.drop (lines.length - min lines.length 1000) := by
  have hkey := log_messages_history lines { s with log_history := [] }
    (by simp)
  simp only [List.nil_append] at hkey
  rw [hkey]
  constructor
  · simp only [List.length_drop, max_log_lines]
    omega
  · have e : lines.length - min lines.length 1000
        = lines.length - max_log_lines := by
      simp only [max_log_lines]
      omega
    rw [e]


/-! ### The log sink, one line at a time -/

theorem log_message_stdout (message : String) (s : Monitor) :
    (log_message message s).stdout
      = if s.use_curses then s.stdout else s.stdout ++ [message] := by
  unfold log_message
  cases s.use_curses <;> simp

theorem log_message_use_curses (message : String) (s : Monitor) :
    (log_message message s).use_curses = s.use_curses := rfl

theorem log_message_watch_descriptors (message : String) (s : Monitor) :
    (log_message message s).watch_descriptors = s.watch_descriptors := rfl

theorem log_message_stderr (message : String) (s : Monitor) :
    (log_message message s).stderr = s.stderr := rfl

theorem log_messages_use_curses (lines : List String) (s : Monitor) :
    (log_messages lines s).use_curses = s.use_curses := by
  induction lines generalizing s with
  | nil => rfl
  | cons line rest ih => rw [log_messages_cons, ih, log_message_use_curses]

theorem log_messages_stdout (lines : List String) (s : Monitor) :
    (log_messages lines s).stdout
      = if s.use_curses then s.stdout else s.stdout ++ lines := by
  induction lines generalizing s with
  | nil => simp [log_messages_nil]
  | cons line rest ih =>
    rw [log_messages_cons, ih, log_message_use_curses, log_message_stdout]
    cases s.use_curses <;> simp

/-- The line just passed to `log_message` is the newest entry of the
history. -/
theorem log_message_newest (message : String) (s : Monitor) :
    (log_message message s).log_history.getLast? = some message := by
  unfold log_message
  simp only []
  split
  · rename_i hfull
    cases hs : s.log_history with
    | nil => rw [hs] at hfull; simp [max_log_lines] at hfull
    | cons x tl => simp
  · simp

/-! ### The decoder's choice of kind -/

theorem classify_event_kind (env : Env) (mask : Nat) (fullpath : String) (s : Monitor) :
    (classify_event env mask fullpath s).1 = first_matching_kind mask := by
  unfold classify_event first_matching_kind kind_precedence
  simp only [List.find?]
  by_cases h1 : mask &&& IN_CREATE ≠ 0
  · simp [h1]
  by_cases h2 : mask &&& IN_DELETE ≠ 0
  · simp [h1, h2]
  by_cases h3 : mask &&& IN_MODIFY ≠ 0
  · simp [h1, h2, h3]
  by_cases h4 : mask &&& IN_MOVED_FROM ≠ 0
  · simp [h1, h2, h3, h4]
  by_cases h5 : mask &&& IN_MOVED_TO ≠ 0
  · simp [h1, h2, h3, h4, h5]
  by_cases h6 : mask &&& IN_ATTRIB ≠ 0
  · simp [h1, h2, h3, h4, h5, h6]
  · simp [h1, h2, h3, h4, h5, h6]

theorem first_matching_kind_mem (mask : Nat) : first_matching_kind mask ∈ all_kinds := by
  unfold first_matching_kind kind_precedence all_kinds
  simp only [List.find?]
  by_cases h1 : mask &&& IN_CREATE ≠ 0
  · simp [h1]
  by_cases h2 : mask &&& IN_DELETE ≠ 0
  · simp [h1, h2]
  by_cases h3 : mask &&& IN_MODIFY ≠ 0
  · simp [h1, h2, h3]
  by_cases h4 : mask &&& IN_MOVED_FROM ≠ 0
  · simp [h1, h2, h3, h4]
  by_cases h5 : mask &&& IN_MOVED_TO ≠ 0
  · simp [h1, h2, h3, h4, h5]
  by_cases h6 : mask &&& IN_ATTRIB ≠ 0
  · simp [h1, h2, h3, h4, h5, h6]
  · simp [h1, h2, h3, h4, h5, h6]

/-- C2 (kind precedence).  For every mask the `event_type` chosen by the
decoder is the kind of the first bit set among IN_CREATE, IN_DELETE,
IN_MODIFY, IN_MOVED_FROM, IN_MOVED_TO, IN_ATTRIB, in this order, and UNKNOWN
when none is set; a mask with IN_MODIFY and IN_ATTRIB set and neither
IN_CREATE nor IN_DELETE decodes to MODIFIED. -/
theorem C2_kind_precedence (env : Env) (mask : Nat) (fullpath : String) (s : Monitor) :
    (classify_event env mask fullpath s).1 = first_matching_kind mask
      ∧ (mask &&& IN_MODIFY ≠ 0 → mask &&& IN_ATTRIB ≠ 0 →
          mask &&& IN_CREATE = 0 → mask &&& IN_DELETE = 0 →
          (classify_event env mask fullpath s).1 = "MODIFIED"
            ∧ (classify_event env mask fullpath s).1 ≠ "ATTRIBUTES_CHANGED") := by
  refine ⟨classify_event_kind env mask fullpath s, ?_⟩
  intro hm _ hc hd
  have hkind : (classify_event env mask fullpath s).1 = "MODIFIED" := by
    unfold classify_event
    simp [hc, hd, hm]
  rw [hkind]
  exact ⟨rfl, by decide⟩

/-- Witness of C2 at the mask `IN_MODIFY | IN_ATTRIB`. -/
theorem C2_kind_precedence_witness :
    (6 &&& IN_MODIFY ≠ 0 ∧ 6 &&& IN_ATTRIB ≠ 0 ∧ 6 &&& IN_CREATE = 0 ∧ 6 &&& IN_DELETE = 0)
      ∧ (classify_event ⟨⟨5, 4, 3, 2, 0, 126⟩, fun _ => .mk false 0 .nil⟩ 6 "/d/f"
          ⟨false, none, [], [], [], []⟩).1 = "MODIFIED" :=
  ⟨by decide,
   ((C2_kind_precedence ⟨⟨5, 4, 3, 2, 0, 126⟩, fun _ => .mk false 0 .nil⟩ 6 "/d/f"
      ⟨false, none, [], [], [], []⟩).2
      (by decide) (by decide) (by decide) (by decide)).1⟩

/-- C6 (mutually exclusive sinks).  With standard output as the list of
lines written, a sequence of lines passed to `log_message` leaves standard
output untouched when `use_curses` is true, and appends every line exactly
once, in order, when `use_curses` is false, however many of them the bounded
history has evicted. -/
theorem C6_exclusive_sinks (s : Monitor) (lines : List String) :
    (log_messages lines { s with use_curses := true }).stdout = s.stdout
      ∧ (log_messages lines { s with use_curses := false }).stdout = s.stdout ++ lines := by
  constructor <;> simp [log_messages_stdout]

/-! ### The installer leaves the log sink alone -/

mutual
theorem add_watch_recursive_sink (path : String) :
    ∀ (node : DirNode) (s s' : Monitor),
      add_watch_recursive path node s = .ok s' → same_sink s' s
  | .mk can_open wd entries, s, s', h => by
    unfold add_watch_recursive at h
    split at h
    · cases h
    · split at h
      · cases h
      · cases h
        exact read_entries_sink path entries _
theorem read_entries_sink (path : String) :
    ∀ (entries : DirEntries) (s : Monitor), same_sink (read_entries path entries s) s
  | .nil, s => by
    unfold read_entries
    exact ⟨rfl, rfl, rfl, rfl⟩
  | .other _ rest, s => by
    unfold read_entries
    exact read_entries_sink path rest s
  | .subdir d_name node rest, s => by
    unfold read_entries
    split
    · exact read_entries_sink path rest s
    · split
      · rename_i s' hok
        have h1 := add_watch_recursive_sink (path ++ "/" ++ d_name) node s s' hok
        have h2 := read_entries_sink path rest s'
        exact ⟨h2.1.trans h1.1, h2.2.1.trans h1.2.1, h2.2.2.1.trans h1.2.2.1,
          h2.2.2.2.trans h1.2.2.2⟩
      · exact read_entries_sink path rest _
end

/-! ### Reading the watch table -/

theorem map_index_known (table : List (Int × String)) (wd : Int) (p : String)
    (h : map_find table wd = some p) : map_index table wd = (p, table) := by
  unfold map_index
  rw [h]

theorem map_index_unknown (table : List (Int × String)) (wd : Int)
    (h : map_find table wd = none) :
    map_index table wd = ("", map_assign table wd "") := by
  unfold map_index
  rw [h]

/-! ### One record -/

theorem process_event_no_name (env : Env) (event : inotify_event) (s : Monitor)
    (hlen : event.len = 0) : process_event env event s = s := by
  unfold process_event
  simp [hlen]

/-- A record with a name ends in exactly one call of `log_message`, on the
state that the `if` chain leaves. -/
theorem process_event_named (env : Env) (event : inotify_event) (s : Monitor)
    (hlen : event.len ≠ 0) :
    process_event env event s
      = log_message
          (get_current_time env.timeinfo ++ " " ++ first_matching_kind event.mask ++ " "
            ++ dir_or_file event.mask ++ ": "
            ++ ((map_index s.watch_descriptors event.wd).1 ++ "/" ++ event.name))
          (classify_event env event.mask
            ((map_index s.watch_descriptors event.wd).1 ++ "/" ++ event.name)
            { s with watch_descriptors := (map_index s.watch_descriptors event.wd).2 }).2 := by
  unfold process_event
  simp only [hlen, ne_eq, not_false_eq_true, if_true, classify_event_kind]

/-- The state the `if` chain leaves differs from the one it found by what
the installer did to the watch table and to `std::cerr`, and by at most one
line in the log sink, the report of a failed install. -/
theorem classify_event_state (env : Env) (mask : Nat) (fullpath : String) (s : Monitor) :
    ∃ (base : Monitor) (pre : List String),
      (classify_event env mask fullpath s).2 = log_messages pre base
        ∧ same_sink base s
        ∧ (pre = [] ∨ ∃ what, pre = ["Error adding watch: " ++ what]) := by
  have hsame : ∃ (base : Monitor) (pre : List String),
      s = log_messages pre base ∧ same_sink base s
        ∧ (pre = [] ∨ ∃ what, pre = ["Error adding watch: " ++ what]) :=
    ⟨s, [], rfl, ⟨rfl, rfl, rfl, rfl⟩, Or.inl rfl⟩
  unfold classify_event
  by_cases h1 : mask &&& IN_CREATE ≠ 0
  · rw [if_pos h1]
    by_cases hd : mask &&& IN_ISDIR ≠ 0
    · rw [if_pos hd]
      cases hres : add_watch_recursive fullpath (env.dir_at fullpath) s with
      | error what =>
        exact ⟨s, ["Error adding watch: " ++ what], rfl, ⟨rfl, rfl, rfl, rfl⟩,
          Or.inr ⟨what, rfl⟩⟩
      | ok s' =>
        exact ⟨s', [], rfl, add_watch_recursive_sink fullpath _ s s' hres, Or.inl rfl⟩
    · rw [if_neg hd]
      exact hsame
  · rw [if_neg h1]
    repeat' split
    all_goals exact hsame

theorem timestamped_event_line (env : Env) (a b c d e f : String) :
    timestamped env (get_current_time env.timeinfo ++ a ++ b ++ c ++ d ++ e ++ f) = true := by
  simp [timestamped, String.data_append, List.append_assoc]

theorem not_timestamped_error_line (env : Env) (what : String) :
    timestamped env ("Error adding watch: " ++ what) = false := by
  simp [timestamped, get_current_time, String.data_append, List.isPrefixOf]

/-- C3 (event line format).  For a record with a name (`event->len` is not
zero) whose handle is in the watch table with path `p`, processing ends in
one call of `log_message` with
the line `T ++ " " ++ KIND ++ " " ++ D ++ ": " ++ p ++ "/" ++ name`: `T` is
the result of `get_current_time`, `KIND` the kind decoded from the mask, one
of the seven kinds, and `D` is `directory` when IN_ISDIR is set and `file`
otherwise.  That line is then the newest entry of the history. -/
theorem C3_event_line_format (env : Env) (event : inotify_event) (s : Monitor) (p : String)
    (hlen : event.len ≠ 0) (hknown : map_find s.watch_descriptors event.wd = some p) :
    first_matching_kind event.mask ∈ all_kinds
      ∧ process_event env event s
        = log_message
            (get_current_time env.timeinfo ++ " " ++ first_matching_kind event.mask ++ " "
              ++ (if event.mask &&& IN_ISDIR ≠ 0 then "directory" else "file") ++ ": "
              ++ p ++ "/" ++ event.name)
            (classify_event env event.mask (p ++ "/" ++ event.name) s).2
      ∧ (process_event env event s).log_history.getLast?
        = some (get_current_time env.timeinfo ++ " " ++ first_matching_kind event.mask ++ " "
              ++ (if event.mask &&& IN_ISDIR ≠ 0 then "directory" else "file") ++ ": "
              ++ p ++ "/" ++ event.name) := by
  have hstep := process_event_named env event s hlen
  rw [map_index_known _ _ _ hknown] at hstep
  have hline : get_current_time env.timeinfo ++ " " ++ first_matching_kind event.mask ++ " "
        ++ dir_or_file event.mask ++ ": " ++ (p ++ "/" ++ event.name)
      = get_current_time env.timeinfo ++ " " ++ first_matching_kind event.mask ++ " "
        ++ (if event.mask &&& IN_ISDIR ≠ 0 then "directory" else "file") ++ ": "
        ++ p ++ "/" ++ event.name := by
    simp only [dir_or_file, String.append_assoc]
  simp only [hline] at hstep
  refine ⟨first_matching_kind_mem _, hstep, ?_⟩
  rw [hstep]
  exact log_message_newest _ _

/-- Witness of C3: a MODIFIED record for `a.txt` under the watched `/d`. -/
theorem C3_event_line_format_witness :
    process_event ⟨⟨5, 4, 3, 2, 0, 126⟩, fun _ => .mk false 0 .nil⟩ ⟨1, 2, 16, "a.txt"⟩
        ⟨false, none, [(1, "/d")], [], [], []⟩
      = log_message "[2026-01-02 03:04:05] MODIFIED file: /d/a.txt"
          ⟨false, none, [(1, "/d")], [], [], []⟩ :=
  (C3_event_line_format ⟨⟨5, 4, 3, 2, 0, 126⟩, fun _ => .mk false 0 .nil⟩
    ⟨1, 2, 16, "a.txt"⟩ ⟨false, none, [(1, "/d")], [], [], []⟩ "/d"
    (by decide) (by decide)).2.1

/-- C4 (records without a name are suppressed).  A record with `len == 0`
leaves the whole state as it was, so no line reaches the log sink.  A record
with a name makes the log sink receive a sequence of lines of which exactly
one is timestamped, for every mask and whether or not the handle is in the
watch table. -/
theorem C4_nameless_suppressed (env : Env) (event : inotify_event) (s : Monitor) :
    (event.len = 0 → process_event env event s = s)
      ∧ (event.len ≠ 0 →
          ∃ (base : Monitor) (lines : List String),
            process_event env event s = log_messages lines base
              ∧ same_sink base s
              ∧ (lines.filter (timestamped env)).length = 1) := by
  refine ⟨process_event_no_name env event s, ?_⟩
  intro hlen
  obtain ⟨base, pre, hstate, hsink, hpre⟩ := classify_event_state env event.mask
    ((map_index s.watch_descriptors event.wd).1 ++ "/" ++ event.name)
    { s with watch_descriptors := (map_index s.watch_descriptors event.wd).2 }
  refine ⟨base, pre ++ [get_current_time env.timeinfo ++ " "
    ++ first_matching_kind event.mask ++ " " ++ dir_or_file event.mask ++ ": "
    ++ ((map_index s.watch_descriptors event.wd).1 ++ "/" ++ event.name)], ?_, hsink, ?_⟩
  · rw [process_event_named env event s hlen, hstate, log_messages_append]
    rfl
  · rcases hpre with hnil | ⟨what, hone⟩
    · subst hnil
      simp [timestamped_event_line]
    · subst hone
      simp [timestamped_event_line, not_timestamped_error_line]

/-- Witness of C4: one record without a name and one with a name. -/
theorem C4_nameless_suppressed_witness :
    process_event ⟨⟨5, 4, 3, 2, 0, 126⟩, fun _ => .mk false 0 .nil⟩ ⟨1, 4, 0, ""⟩
        ⟨false, none, [(1, "/d")], [], [], []⟩
      = ⟨false, none, [(1, "/d")], [], [], []⟩
    ∧ ∃ (base : Monitor) (lines : List String),
        process_event ⟨⟨5, 4, 3, 2, 0, 126⟩, fun _ => .mk false 0 .nil⟩ ⟨1, 4, 16, "f"⟩
            ⟨false, none, [(1, "/d")], [], [], []⟩ = log_messages lines base
          ∧ same_sink base ⟨false, none, [(1, "/d")], [], [], []⟩
          ∧ (lines.filter (timestamped ⟨⟨5, 4, 3, 2, 0, 126⟩,
              fun _ => .mk false 0 .nil⟩)).length = 1 :=
  ⟨(C4_nameless_suppressed ⟨⟨5, 4, 3, 2, 0, 126⟩, fun _ => .mk false 0 .nil⟩ ⟨1, 4, 0, ""⟩
      ⟨false, none, [(1, "/d")], [], [], []⟩).1 (by decide),
   (C4_nameless_suppressed ⟨⟨5, 4, 3, 2, 0, 126⟩, fun _ => .mk false 0 .nil⟩ ⟨1, 4, 16, "f"⟩
      ⟨false, none, [(1, "/d")], [], [], []⟩).2 (by decide)⟩

/-- C5 (degraded resolution).  For a record with a name (`event->len` is not
zero) whose handle is not in the watch table, processing still returns a
state: the path read from the
table is the empty string, the full path is `"/" ++ name`, and the event
line built on it is passed to `log_message` and becomes the newest entry of
the history. -/
theorem C5_degraded_resolution (env : Env) (event : inotify_event) (s : Monitor)
    (hlen : event.len ≠ 0) (hunknown : map_find s.watch_descriptors event.wd = none) :
    (map_index s.watch_descriptors event.wd).1 = ""
      ∧ (map_index s.watch_descriptors event.wd).1 ++ "/" ++ event.name = "/" ++ event.name
      ∧ process_event env event s
        = log_message
            (get_current_time env.timeinfo ++ " " ++ first_matching_kind event.mask ++ " "
              ++ dir_or_file event.mask ++ ": " ++ ("/" ++ event.name))
            (classify_event env event.mask ("/" ++ event.name)
              { s with watch_descriptors := map_assign s.watch_descriptors event.wd "" }).2
      ∧ (process_event env event s).log_history.getLast?
        = some (get_current_time env.timeinfo ++ " " ++ first_matching_kind event.mask ++ " "
              ++ dir_or_file event.mask ++ ": " ++ ("/" ++ event.name)) := by
  have hstep := process_event_named env event s hlen
  rw [map_index_unknown _ _ hunknown] at hstep
  simp only [String.empty_append] at hstep
  refine ⟨?_, ?_, hstep, ?_⟩
  · rw [map_index_unknown _ _ hunknown]
  · rw [map_index_unknown _ _ hunknown]
    show "" ++ "/" ++ event.name = "/" ++ event.name
    rw [String.empty_append]
  · rw [hstep]
    exact log_message_newest _ _

/-- Witness of C5: handle 9 is not in the table. -/
theorem C5_degraded_resolution_witness :
    (process_event ⟨⟨5, 4, 3, 2, 0, 126⟩, fun _ => .mk false 0 .nil⟩ ⟨9, 512, 16, "gone"⟩
        ⟨false, none, [(1, "/d")], [], [], []⟩).log_history.getLast?
      = some "[2026-01-02 03:04:05] DELETED file: /gone" :=
  (C5_degraded_resolution ⟨⟨5, 4, 3, 2, 0, 126⟩, fun _ => .mk false 0 .nil⟩
    ⟨9, 512, 16, "gone"⟩ ⟨false, none, [(1, "/d")], [], [], []⟩
    (by decide) (by decide)).2.2.2

/-! ### Assigning into the watch table -/

theorem map_assign_fresh (table : List (Int × String)) (wd : Int) (path : String)
    (hfresh : wd ∉ table.map Prod.fst) :
    map_assign table wd path = table ++ [(wd, path)] := by
  induction table with
  | nil => rfl
  | cons entry rest ih =>
    obtain ⟨key, old⟩ := entry
    simp only [List.map_cons, List.mem_cons, not_or] at hfresh
    unfold map_assign
    have hne : ¬ key = wd := fun h => hfresh.1 h.symm
    simp only [hne, if_false, List.cons_append, ih hfresh.2]

theorem map_find_of_mem (table : List (Int × String)) (wd : Int) (path : String)
    (hkeys : (table.map Prod.fst).Nodup) (hmem : (wd, path) ∈ table) :
    map_find table wd = some path := by
  induction table with
  | nil => cases hmem
  | cons entry rest ih =>
    obtain ⟨key, old⟩ := entry
    simp only [List.map_cons, List.nodup_cons] at hkeys
    unfold map_find
    rcases List.mem_cons.mp hmem with heq | hrest
    · cases heq
      simp
    · have hne : ¬ key = wd := by
        intro h
        subst h
        exact hkeys.1 (List.mem_map_of_mem Prod.fst hrest)
      simp only [hne, if_false]
      exact ih hkeys.2 hrest

theorem mem_of_map_find (table : List (Int × String)) (wd : Int) (path : String)
    (hfound : map_find table wd = some path) : (wd, path) ∈ table := by
  induction table with
  | nil => cases hfound
  | cons entry rest ih =>
    obtain ⟨key, old⟩ := entry
    unfold map_find at hfound
    by_cases hk : key = wd
    · simp only [hk, if_true, Option.some.injEq] at hfound
      subst hk hfound
      exact List.mem_cons_self _ _
    · simp only [hk, if_false] at hfound
      exact List.mem_cons_of_mem _ (ih hfound)

/-! ### The installer on a tree without failures -/

mutual
theorem node_dirs_length (path : String) :
    ∀ (node : DirNode), (node_dirs path node).length = count_dirs node
  | .mk _ _ entries => by
    unfold node_dirs count_dirs
    rw [List.length_cons, entries_dirs_length path entries]
    omega
theorem entries_dirs_length (path : String) :
    ∀ (entries : DirEntries), (entries_dirs path entries).length = count_entries_dirs entries
  | .nil => by
    unfold entries_dirs count_entries_dirs
    rfl
  | .other _ rest => by
    unfold entries_dirs count_entries_dirs
    exact entries_dirs_length path rest
  | .subdir d_name node rest => by
    unfold entries_dirs count_entries_dirs
    split
    · exact entries_dirs_length path rest
    · rw [List.length_append, node_dirs_length (path ++ "/" ++ d_name) node,
        entries_dirs_length path rest]
end

mutual
/-- On a tree in which nothing fails and whose handles are new to the table
and pairwise distinct, the installer succeeds and appends the directories of
the tree to the table; nothing else changes. -/
theorem add_watch_recursive_ok (path : String) :
    ∀ (node : DirNode) (s : Monitor), node_ok node = true →
      ((s.watch_descriptors ++ node_dirs path node).map Prod.fst).Nodup →
      add_watch_recursive path node s
        = .ok { s with watch_descriptors := s.watch_descriptors ++ node_dirs path node }
  | .mk can_open wd entries, s, hok, hkeys => by
    unfold node_ok at hok
    simp only [Bool.and_eq_true, decide_eq_true_eq] at hok
    obtain ⟨⟨hopen, hwd⟩, hrest⟩ := hok
    unfold node_dirs at hkeys ⊢
    have hfresh : wd ∉ s.watch_descriptors.map Prod.fst := by
      intro hmem
      rw [List.map_append, List.map_cons] at hkeys
      exact (List.nodup_append.mp hkeys).2.2 hmem (List.mem_cons_self _ _)
    have hkeys2 : (((s.watch_descriptors ++ [(wd, path)])
        ++ entries_dirs path entries).map Prod.fst).Nodup := by
      simpa [List.append_assoc] using hkeys
    unfold add_watch_recursive
    have hnot : ¬ wd < 0 := by omega
    simp only [hopen, hnot, Bool.not_true, if_false, Bool.false_eq_true]
    rw [map_assign_fresh _ _ _ hfresh]
    rw [read_entries_ok path entries
      { s with watch_descriptors := s.watch_descriptors ++ [(wd, path)] } hrest hkeys2]
    simp [List.append_assoc]
theorem read_entries_ok (path : String) :
    ∀ (entries : DirEntries) (s : Monitor), entries_ok entries = true →
      ((s.watch_descriptors ++ entries_dirs path entries).map Prod.fst).Nodup →
      read_entries path entries s
        = { s with watch_descriptors := s.watch_descriptors ++ entries_dirs path entries }
  | .nil, s, _, _ => by
    unfold read_entries entries_dirs
    simp
  | .other _ rest, s, hok, hkeys => by
    unfold entries_ok at hok
    unfold entries_dirs at hkeys ⊢
    unfold read_entries
    exact read_entries_ok path rest s hok hkeys
  | .subdir d_name node rest, s, hok, hkeys => by
    unfold entries_ok at hok
    unfold entries_dirs at hkeys ⊢
    unfold read_entries
    by_cases hdot : d_name = "." ∨ d_name = ".."
    · rw [if_pos hdot] at hok hkeys ⊢
      rw [if_pos hdot]
      exact read_entries_ok path rest s hok hkeys
    · rw [if_neg hdot] at hok hkeys ⊢
      rw [if_neg hdot]
      simp only [Bool.and_eq_true] at hok
      have hkeys1 : ((s.watch_descriptors
          ++ node_dirs (path ++ "/" ++ d_name) node).map Prod.fst).Nodup := by
        rw [← List.append_assoc, List.map_append] at hkeys
        exact (List.nodup_append.mp hkeys).1
      rw [add_watch_recursive_ok (path ++ "/" ++ d_name) node s hok.1 hkeys1]
      have hkeys2 : (((s.watch_descriptors ++ node_dirs (path ++ "/" ++ d_name) node)
          ++ entries_dirs path rest).map Prod.fst).Nodup := by
        simpa [List.append_assoc] using hkeys
      simp only []
      rw [read_entries_ok path rest _ hok.2 hkeys2]
      simp [List.append_assoc]
end

theorem read_entries_append (path : String) (more : DirEntries) :
    ∀ (entries : DirEntries) (s : Monitor),
      read_entries path (DirEntries.append entries more) s
        = read_entries path more (read_entries path entries s)
  | .nil, s => by
    simp only [DirEntries.append, read_entries]
  | .other _ rest, s => by
    simp only [DirEntries.append, read_entries]
    exact read_entries_append path more rest s
  | .subdir d_name node rest, s => by
    simp only [DirEntries.append, read_entries]
    split
    · exact read_entries_append path more rest s
    · split
      · exact read_entries_append path more rest _
      · exact read_entries_append path more rest _

/-- C7 (recursive coverage).  On a tree with `K` directories in which every
directory can be opened, every registration is accepted and the handles
issued are pairwise distinct, `add_watch_recursive` started on the root with
an empty watch table succeeds; the table it leaves has exactly `K` entries,
one per directory of the tree, and looking a handle up yields a path exactly
when that handle was issued for the directory at that path. -/
theorem C7_recursive_coverage (s : Monitor) (root : String) (node : DirNode)
    (hok : node_ok node = true)
    (hdistinct : ((node_dirs root node).map Prod.fst).Nodup) :
    ∃ s', add_watch_recursive root node { s with watch_descriptors := [] } = .ok s'
      ∧ s'.watch_descriptors = node_dirs root node
      ∧ s'.watch_descriptors.length = count_dirs node
      ∧ ∀ (wd : Int) (path : String),
          map_find s'.watch_descriptors wd = some path ↔ (wd, path) ∈ node_dirs root node := by
  refine ⟨{ s with watch_descriptors := node_dirs root node }, ?_, rfl,
    node_dirs_length root node, ?_⟩
  · have h := add_watch_recursive_ok root node { s with watch_descriptors := [] } hok
      (by simpa using hdistinct)
    simpa using h
  · intro wd path
    exact ⟨mem_of_map_find _ wd path, map_find_of_mem _ wd path hdistinct⟩

/-- Witness of C7: `/r` with the subdirectories `a` (holding `x`) and `b`
and one file, four directories in all. -/
theorem C7_recursive_coverage_witness :
    ∃ s', add_watch_recursive "/r"
        (.mk true 1 (.subdir "." (.mk true 1 .nil) (.subdir "a" (.mk true 2
          (.subdir "x" (.mk true 3 .nil) .nil)) (.other "f.txt"
          (.subdir "b" (.mk true 4 .nil) .nil)))))
        { (⟨false, none, [(7, "/old")], [], [], []⟩ : Monitor) with watch_descriptors := [] }
          = .ok s'
      ∧ s'.watch_descriptors = [(1, "/r"), (2, "/r/a"), (3, "/r/a/x"), (4, "/r/b")]
      ∧ s'.watch_descriptors.length = 4
      ∧ ∀ (wd : Int) (path : String),
          map_find s'.watch_descriptors wd = some path
            ↔ (wd, path) ∈ [(1, "/r"), (2, "/r/a"), (3, "/r/a/x"), (4, "/r/b")] :=
  C7_recursive_coverage ⟨false, none, [(7, "/old")], [], [], []⟩ "/r"
    (.mk true 1 (.subdir "." (.mk true 1 .nil) (.subdir "a" (.mk true 2
      (.subdir "x" (.mk true 3 .nil) .nil)) (.other "f.txt"
      (.subdir "b" (.mk true 4 .nil) .nil)))))
    (by decide) (by decide)

/-! ### The installer when handles repeat -/

theorem map_find_assign (wd wd' : Int) (path : String) :
    ∀ (table : List (Int × String)),
      map_find (map_assign table wd path) wd'
        = if wd = wd' then some path else map_find table wd'
  | [] => by
    simp only [map_assign, map_find]
  | (key, old) :: rest => by
    have ih := map_find_assign wd wd' path rest
    by_cases hk : key = wd
    · by_cases hw : wd = wd'
      · simp [map_assign, map_find, hk, hw]
      · have hkw : ¬ key = wd' := fun h => hw (hk.symm.trans h)
        simp [map_assign, map_find, hk, hw]
    · by_cases hkw : key = wd'
      · subst hkw
        have hw : ¬ wd = key := fun h => hk h.symm
        simp [map_assign, map_find, hk, hw]
      · simp [map_assign, map_find, hk, hkw, ih]

theorem assign_all_nil (table : List (Int × String)) : assign_all table [] = table := rfl

theorem assign_all_cons (table : List (Int × String)) (d : Int × String)
    (dirs : List (Int × String)) :
    assign_all table (d :: dirs) = assign_all (map_assign table d.1 d.2) dirs := rfl

theorem assign_all_append (table : List (Int × String)) (front back : List (Int × String)) :
    assign_all table (front ++ back) = assign_all (assign_all table front) back := by
  simp [assign_all, List.foldl_append]

/-- A handle that none of the directories was given keeps the entry it had,
or keeps having none. -/
theorem map_find_assign_all_other (wd : Int) :
    ∀ (dirs : List (Int × String)) (table : List (Int × String)),
      wd ∉ dirs.map Prod.fst → map_find (assign_all table dirs) wd = map_find table wd
  | [], _, _ => rfl
  | d :: dirs, table, h => by
    simp only [List.map_cons, List.mem_cons, not_or] at h
    rw [assign_all_cons, map_find_assign_all_other wd dirs _ h.2, map_find_assign]
    have hne : ¬ d.1 = wd := fun heq => h.1 heq.symm
    rw [if_neg hne]

/-- When the directories were given pairwise distinct handles, each handle
is mapped to the path of its directory. -/
theorem map_find_assign_all_mem (wd : Int) (path : String) :
    ∀ (dirs : List (Int × String)) (table : List (Int × String)),
      (dirs.map Prod.fst).Nodup → (wd, path) ∈ dirs →
      map_find (assign_all table dirs) wd = some path
  | [], _, _, h => by cases h
  | d :: dirs, table, hkeys, hmem => by
    simp only [List.map_cons, List.nodup_cons] at hkeys
    rw [assign_all_cons]
    rcases List.mem_cons.mp hmem with heq | hrest
    · subst heq
      rw [map_find_assign_all_other _ dirs _ hkeys.1, map_find_assign]
      simp
    · exact map_find_assign_all_mem wd path dirs _ hkeys.2 hrest

mutual
/-- On a tree in which nothing fails the installer succeeds and makes the
assignment of every directory of the tree, parents first; nothing else
changes.  Nothing is assumed about the handles. -/
theorem add_watch_recursive_assign (path : String) :
    ∀ (node : DirNode) (s : Monitor), node_ok node = true →
      add_watch_recursive path node s
        = .ok { s with
            watch_descriptors := assign_all s.watch_descriptors (node_dirs path node) }
  | .mk can_open wd entries, s, hok => by
    unfold node_ok at hok
    simp only [Bool.and_eq_true, decide_eq_true_eq] at hok
    obtain ⟨⟨hopen, hwd⟩, hrest⟩ := hok
    unfold node_dirs
    unfold add_watch_recursive
    have hnot : ¬ wd < 0 := by omega
    simp only [hopen, hnot, Bool.not_true, if_false, Bool.false_eq_true]
    rw [read_entries_assign path entries _ hrest]
    rfl
theorem read_entries_assign (path : String) :
    ∀ (entries : DirEntries) (s : Monitor), entries_ok entries = true →
      read_entries path entries s
        = { s with
            watch_descriptors := assign_all s.watch_descriptors (entries_dirs path entries) }
  | .nil, s, _ => by
    simp only [read_entries, entries_dirs, assign_all_nil]
  | .other _ rest, s, hok => by
    unfold entries_ok at hok
    simp only [read_entries, entries_dirs]
    exact read_entries_assign path rest s hok
  | .subdir d_name node rest, s, hok => by
    unfold entries_ok at hok
    simp only [read_entries, entries_dirs]
    by_cases hdot : d_name = "." ∨ d_name = ".."
    · rw [if_pos hdot] at hok ⊢
      rw [if_pos hdot]
      exact read_entries_assign path rest s hok
    · rw [if_neg hdot] at hok ⊢
      rw [if_neg hdot]
      simp only [Bool.and_eq_true] at hok
      rw [add_watch_recursive_assign (path ++ "/" ++ d_name) node s hok.1]
      simp only []
      rw [read_entries_assign path rest _ hok.2, assign_all_append]
end

/-- Counterexample to C8 as stated: `/p` lists `a`, `b` and `c`, where `b`
cannot be opened and `c` is the same directory as `a` under a second name (a
symbolic link to it, which `stat` and `inotify_add_watch` follow), so that
the facility answers with the handle of `a` again.  `a` and `c` can each be
installed and the call on `/p` succeeds with one warning for `b`, but the
assignment for `c` replaces the one for `a`: the table has no entry for
`/p/a`. -/
theorem C8_counterexample :
    node_ok (.mk true 2 .nil) = true
      ∧ add_watch_recursive "/p"
          (.mk true 1 (.subdir "a" (.mk true 2 .nil)
            (.subdir "b" (.mk false 3 .nil) (.subdir "c" (.mk true 2 .nil) .nil))))
          ⟨false, none, [], [], [], []⟩
        = .ok ⟨false, none, [(1, "/p"), (2, "/p/c")], [], [],
            ["Warning: Could not open directory: /p/b"]⟩
      ∧ "/p/a" ∉ ([(1, "/p"), (2, "/p/c")] : List (Int × String)).map Prod.snd :=
  ⟨by decide, rfl, by decide⟩

/-- C8 (amended).  Let the directory at `path` open and get the handle
`wdP`, and let its listing hold the subdirectory `b` whose install fails (it
cannot be opened, or its watch is refused), with any entries before and
after it whose subdirectories (`A` and `C` of the claim, in whichever
position) can be installed.  Then the call on `path` succeeds; the table is
the old one after the assignments for `path` and for the directories of the
trees before and after `b`, in this order, and none for `b`; and `std::cerr`
gains one line, the warning with the error message of `b`.  When the handles
given to these directories are pairwise distinct, whether or not the table
already held them, the table maps each of them to the path of its directory;
every other handle keeps what it had. -/
theorem C8_sibling_resilience (s : Monitor) (path : String) (wdP : Int)
    (before after : DirEntries) (b : String) (b_open : Bool) (b_wd : Int)
    (b_entries : DirEntries)
    (hname : ¬ (b = "." ∨ b = "..")) (hwdP : 0 ≤ wdP)
    (hfail : b_open = false ∨ b_wd < 0)
    (hbefore : entries_ok before = true) (hafter : entries_ok after = true) :
    add_watch_recursive path
        (.mk true wdP (DirEntries.append before (.subdir b (.mk b_open b_wd b_entries) after))) s
      = .ok { s with
          watch_descriptors := assign_all s.watch_descriptors
            ((wdP, path) :: (entries_dirs path before ++ entries_dirs path after)),
          stderr := s.stderr ++ ["Warning: " ++
            (if b_open = false then "Could not open directory: " ++ (path ++ "/" ++ b)
             else "Could not add watch for: " ++ (path ++ "/" ++ b))] }
    ∧ ((((wdP, path) :: (entries_dirs path before ++ entries_dirs path after)).map
          Prod.fst).Nodup →
        ∀ (wd : Int) (p : String),
          (wd, p) ∈ (wdP, path) :: (entries_dirs path before ++ entries_dirs path after) →
          map_find (assign_all s.watch_descriptors
            ((wdP, path) :: (entries_dirs path before ++ entries_dirs path after))) wd
            = some p)
    ∧ (∀ (wd : Int),
        wd ∉ ((wdP, path) :: (entries_dirs path before ++ entries_dirs path after)).map
          Prod.fst →
        map_find (assign_all s.watch_descriptors
            ((wdP, path) :: (entries_dirs path before ++ entries_dirs path after))) wd
          = map_find s.watch_descriptors wd) := by
  refine ⟨?_, ?_, ?_⟩
  · have hB : ∀ (s1 : Monitor),
        add_watch_recursive (path ++ "/" ++ b) (.mk b_open b_wd b_entries) s1
          = .error (if b_open = false then "Could not open directory: " ++ (path ++ "/" ++ b)
              else "Could not add watch for: " ++ (path ++ "/" ++ b)) := by
      intro s1
      unfold add_watch_recursive
      cases b_open with
      | false => simp
      | true =>
        have hneg : b_wd < 0 := by
          rcases hfail with h | h
          · cases h
          · exact h
        simp [hneg]
    unfold add_watch_recursive
    have hnot : ¬ wdP < 0 := by omega
    simp only [hnot, Bool.not_true, if_false, Bool.false_eq_true]
    rw [read_entries_append, read_entries_assign path before _ hbefore]
    conv => lhs; unfold read_entries
    rw [if_neg hname]
    simp only [hB]
    rw [read_entries_assign path after _ hafter]
    simp only [assign_all_cons, assign_all_append]
  · intro hkeys wd p hmem
    exact map_find_assign_all_mem wd p _ _ hkeys hmem
  · intro wd hother
    exact map_find_assign_all_other wd _ _ hother

/-- Witness of C8 (amended): `/p`, already watched under handle 1, lists
`a`, `b`, `c`; `b` cannot be opened. -/
theorem C8_sibling_resilience_witness :
    add_watch_recursive "/p"
        (.mk true 1 (.subdir "a" (.mk true 2 .nil)
          (.subdir "b" (.mk false 3 .nil) (.subdir "c" (.mk true 4 .nil) .nil))))
        ⟨false, none, [(1, "/p"), (7, "/q")], [], [], []⟩
      = .ok ⟨false, none, [(1, "/p"), (7, "/q"), (2, "/p/a"), (4, "/p/c")], [], [],
          ["Warning: Could not open directory: /p/b"]⟩
    ∧ map_find [(1, "/p"), (7, "/q"), (2, "/p/a"), (4, "/p/c")] 2 = some "/p/a"
    ∧ map_find [(1, "/p"), (7, "/q"), (2, "/p/a"), (4, "/p/c")] 4 = some "/p/c"
    ∧ map_find [(1, "/p"), (7, "/q"), (2, "/p/a"), (4, "/p/c")] 3 = none :=
  ⟨(C8_sibling_resilience ⟨false, none, [(1, "/p"), (7, "/q")], [], [], []⟩ "/p" 1
      (.subdir "a" (.mk true 2 .nil) .nil) (.subdir "c" (.mk true 4 .nil) .nil)
      "b" false 3 .nil (by decide) (by decide) (Or.inl rfl) (by decide) (by decide)).1,
   (C8_sibling_resilience ⟨false, none, [(1, "/p"), (7, "/q")], [], [], []⟩ "/p" 1
      (.subdir "a" (.mk true 2 .nil) .nil) (.subdir "c" (.mk true 4 .nil) .nil)
      "b" false 3 .nil (by decide) (by decide) (Or.inl rfl) (by decide) (by decide)).2.1
      (by decide) 2 "/p/a" (by decide),
   (C8_sibling_resilience ⟨false, none, [(1, "/p"), (7, "/q")], [], [], []⟩ "/p" 1
      (.subdir "a" (.mk true 2 .nil) .nil) (.subdir "c" (.mk true 4 .nil) .nil)
      "b" false 3 .nil (by decide) (by decide) (Or.inl rfl) (by decide) (by decide)).2.1
      (by decide) 4 "/p/c" (by decide),
   (C8_sibling_resilience ⟨false, none, [(1, "/p"), (7, "/q")], [], [], []⟩ "/p" 1
      (.subdir "a" (.mk true 2 .nil) .nil) (.subdir "c" (.mk true 4 .nil) .nil)
      "b" false 3 .nil (by decide) (by decide) (Or.inl rfl) (by decide) (by decide)).2.2
      3 (by decide)⟩

/-- C9 (installer failure condition).  `add_watch_recursive` on `path`
throws exactly when `path` itself cannot be opened or the watch on `path`
itself is refused, whatever its listing holds, so no failure of a descendant
makes the call fail; the message is `Could not open directory: ` followed by
`path` in the first case and `Could not add watch for: ` followed by `path`
in the second. -/
theorem C9_installer_failure (path : String) (can_open : Bool) (wd : Int)
    (entries : DirEntries) (s : Monitor) :
    ((∃ what, add_watch_recursive path (.mk can_open wd entries) s = .error what)
        ↔ (can_open = false ∨ wd < 0))
      ∧ (can_open = false →
          add_watch_recursive path (.mk can_open wd entries) s
            = .error ("Could not open directory: " ++ path))
      ∧ (can_open = true → wd < 0 →
          add_watch_recursive path (.mk can_open wd entries) s
            = .error ("Could not add watch for: " ++ path)) := by
  unfold add_watch_recursive
  cases can_open with
  | false => simp
  | true =>
    by_cases hneg : wd < 0
    · simp [hneg]
    · simp [hneg]

/-- Witness of C9: a root that cannot be opened, a root whose watch is
refused, and a root that succeeds although its only subdirectory fails. -/
theorem C9_installer_failure_witness :
    add_watch_recursive "/r" (.mk false 1 .nil) ⟨false, none, [], [], [], []⟩
        = .error "Could not open directory: /r"
      ∧ add_watch_recursive "/r" (.mk true (-1) .nil) ⟨false, none, [], [], [], []⟩
        = .error "Could not add watch for: /r"
      ∧ ¬ (∃ what, add_watch_recursive "/r"
            (.mk true 1 (.subdir "a" (.mk false 2 .nil) .nil))
            ⟨false, none, [], [], [], []⟩ = .error what) :=
  ⟨(C9_installer_failure "/r" false 1 .nil ⟨false, none, [], [], [], []⟩).2.1 rfl,
   (C9_installer_failure "/r" true (-1) .nil ⟨false, none, [], [], [], []⟩).2.2 rfl
     (by decide),
   fun h => absurd
     ((C9_installer_failure "/r" true 1 (.subdir "a" (.mk false 2 .nil) .nil)
       ⟨false, none, [], [], [], []⟩).1.mp h) (by decide)⟩

/-- C10 (a failed install at run time is logged and swallowed).  When a
record with a name has IN_CREATE and IN_ISDIR set and the install on the new
path throws with message `what`, processing the record returns a state: the
log sink has received `Error adding watch: ` followed by `what` and, right
after it, the CREATED directory line of the record, the watch table is the
one left by reading the handle, and the inner loop goes on to the remaining
records of the batch from that state. -/
theorem C10_runtime_install_failure (env : Env) (event : inotify_event) (s : Monitor)
    (rest : List (Env × inotify_event)) (what : String)
    (hlen : event.len ≠ 0) (hcreate : event.mask &&& IN_CREATE ≠ 0)
    (hisdir : event.mask &&& IN_ISDIR ≠ 0)
    (hfail : add_watch_recursive
        ((map_index s.watch_descriptors event.wd).1 ++ "/" ++ event.name)
        (env.dir_at ((map_index s.watch_descriptors event.wd).1 ++ "/" ++ event.name))
        { s with watch_descriptors := (map_index s.watch_descriptors event.wd).2 }
      = .error what) :
    process_event env event s
        = log_messages
            ["Error adding watch: " ++ what,
             get_current_time env.timeinfo ++ " " ++ "CREATED" ++ " " ++ "directory" ++ ": "
               ++ ((map_index s.watch_descriptors event.wd).1 ++ "/" ++ event.name)]
            { s with watch_descriptors := (map_index s.watch_descriptors event.wd).2 }
      ∧ process_batch ((env, event) :: rest) s
        = process_batch rest
            (log_messages
              ["Error adding watch: " ++ what,
               get_current_time env.timeinfo ++ " " ++ "CREATED" ++ " " ++ "directory" ++ ": "
                 ++ ((map_index s.watch_descriptors event.wd).1 ++ "/" ++ event.name)]
              { s with watch_descriptors := (map_index s.watch_descriptors event.wd).2 }) := by
  have hstep : process_event env event s
        = log_messages
            ["Error adding watch: " ++ what,
             get_current_time env.timeinfo ++ " " ++ "CREATED" ++ " " ++ "directory" ++ ": "
               ++ ((map_index s.watch_descriptors event.wd).1 ++ "/" ++ event.name)]
            { s with watch_descriptors := (map_index s.watch_descriptors event.wd).2 } := by
    unfold process_event
    simp only [hlen, ne_eq, not_false_eq_true, if_true]
    unfold classify_event dir_or_file
    rw [if_pos hcreate, if_pos hisdir, if_pos hisdir]
    simp only [hfail]
    rfl
  refine ⟨hstep, ?_⟩
  unfold process_batch
  rw [List.foldl_cons, hstep]

/-- Witness of C10: `/d/new` is reported as a new directory but is gone by
the time the installer tries to open it; a second record follows. -/
theorem C10_runtime_install_failure_witness :
    process_batch
        [(⟨⟨5, 4, 3, 2, 0, 126⟩, fun _ => .mk false 0 .nil⟩, ⟨1, 0x40000100, 16, "new"⟩),
         (⟨⟨6, 4, 3, 2, 0, 126⟩, fun _ => .mk false 0 .nil⟩, ⟨1, 2, 16, "f"⟩)]
        ⟨false, none, [(1, "/d")], [], [], []⟩
      = ⟨false, none, [(1, "/d")],
          ["Error adding watch: Could not open directory: /d/new",
           "[2026-01-02 03:04:05] CREATED directory: /d/new",
           "[2026-01-02 03:04:06] MODIFIED file: /d/f"],
          ["Error adding watch: Could not open directory: /d/new",
           "[2026-01-02 03:04:05] CREATED directory: /d/new",
           "[2026-01-02 03:04:06] MODIFIED file: /d/f"], []⟩ :=
  (C10_runtime_install_failure ⟨⟨5, 4, 3, 2, 0, 126⟩, fun _ => .mk false 0 .nil⟩
    ⟨1, 0x40000100, 16, "new"⟩ ⟨false, none, [(1, "/d")], [], [], []⟩
    [(⟨⟨6, 4, 3, 2, 0, 126⟩, fun _ => .mk false 0 .nil⟩, ⟨1, 2, 16, "f"⟩)]
    "Could not open directory: /d/new" (by decide) (by decide) (by decide) rfl).2.trans
    (by decide)

/-! ### Extending and preserving the watch table at run time -/

theorem count_dirs_pos : ∀ (node : DirNode), 0 < count_dirs node
  | .mk _ _ _ => by
    unfold count_dirs
    omega

/-- A directory without subdirectories: the `readdir` loop changes nothing. -/
theorem read_entries_leaf (path : String) :
    ∀ (entries : DirEntries) (s : Monitor), count_entries_dirs entries = 0 →
      read_entries path entries s = s
  | .nil, s, _ => by
    simp only [read_entries]
  | .other _ rest, s, h => by
    simp only [count_entries_dirs] at h
    simp only [read_entries]
    exact read_entries_leaf path rest s h
  | .subdir d_name node rest, s, h => by
    simp only [count_entries_dirs] at h
    simp only [read_entries]
    by_cases hdot : d_name = "." ∨ d_name = ".."
    · rw [if_pos hdot] at h ⊢
      exact read_entries_leaf path rest s h
    · rw [if_neg hdot] at h
      have hpos := count_dirs_pos node
      omega

theorem map_find_none_not_mem (table : List (Int × String)) (wd : Int)
    (h : map_find table wd = none) : wd ∉ table.map Prod.fst := by
  induction table with
  | nil => simp
  | cons entry rest ih =>
    obtain ⟨key, old⟩ := entry
    unfold map_find at h
    by_cases hk : key = wd
    · simp [hk] at h
    · simp only [hk, if_false] at h
      simp only [List.map_cons, List.mem_cons, not_or]
      exact ⟨fun heq => hk heq.symm, ih h⟩

/-- Outside the branch for a created directory the `if` chain leaves the
state as it found it. -/
theorem classify_event_plain (env : Env) (mask : Nat) (fullpath : String) (s : Monitor)
    (h : ¬ (mask &&& IN_CREATE ≠ 0 ∧ mask &&& IN_ISDIR ≠ 0)) :
    (classify_event env mask fullpath s).2 = s := by
  unfold classify_event
  by_cases h1 : mask &&& IN_CREATE ≠ 0
  · rw [if_pos h1]
    have hd : ¬ (mask &&& IN_ISDIR ≠ 0) := fun hd => h ⟨h1, hd⟩
    simp only [if_neg hd]
  · rw [if_neg h1]
    repeat' split
    all_goals rfl

/-- C11 (incremental extension).  Let a record with a name have IN_CREATE
and IN_ISDIR set and a handle that the watch table maps to `p`, and let the
directory at `p ++ "/" ++ name` open, list no subdirectory and be given the
handle `h`, new to the table.  Then the record's CREATED line is passed to
`log_message` on a state whose table already is the old table followed by
the one entry `h -> p ++ "/" ++ name`, and that is the table after the
record. -/
theorem C11_incremental_extension (env : Env) (event : inotify_event) (s : Monitor)
    (p : String) (h : Int) (entries : DirEntries)
    (hlen : event.len ≠ 0) (hcreate : event.mask &&& IN_CREATE ≠ 0)
    (hisdir : event.mask &&& IN_ISDIR ≠ 0)
    (hknown : map_find s.watch_descriptors event.wd = some p)
    (hdir : env.dir_at (p ++ "/" ++ event.name) = .mk true h entries)
    (hleaf : count_entries_dirs entries = 0)
    (hissued : 0 ≤ h) (hfresh : h ∉ s.watch_descriptors.map Prod.fst) :
    process_event env event s
        = log_message
            (get_current_time env.timeinfo ++ " " ++ "CREATED" ++ " " ++ "directory" ++ ": "
              ++ (p ++ "/" ++ event.name))
            { s with watch_descriptors :=
                s.watch_descriptors ++ [(h, p ++ "/" ++ event.name)] }
      ∧ (process_event env event s).watch_descriptors
        = s.watch_descriptors ++ [(h, p ++ "/" ++ event.name)] := by
  have hinstall : add_watch_recursive (p ++ "/" ++ event.name)
      (env.dir_at (p ++ "/" ++ event.name)) s
      = .ok { s with watch_descriptors :=
          s.watch_descriptors ++ [(h, p ++ "/" ++ event.name)] } := by
    rw [hdir]
    unfold add_watch_recursive
    have hnot : ¬ h < 0 := by omega
    simp only [hnot, Bool.not_true, if_false, Bool.false_eq_true]
    rw [map_assign_fresh _ _ _ hfresh, read_entries_leaf _ _ _ hleaf]
  have hstep : process_event env event s
        = log_message
            (get_current_time env.timeinfo ++ " " ++ "CREATED" ++ " " ++ "directory" ++ ": "
              ++ (p ++ "/" ++ event.name))
            { s with watch_descriptors :=
                s.watch_descriptors ++ [(h, p ++ "/" ++ event.name)] } := by
    unfold process_event
    simp only [hlen, ne_eq, not_false_eq_true, if_true]
    rw [map_index_known _ _ _ hknown]
    unfold classify_event dir_or_file
    rw [if_pos hcreate, if_pos hisdir, if_pos hisdir]
    simp only [hinstall]
  refine ⟨hstep, ?_⟩
  rw [hstep, log_message_watch_descriptors]

/-- Witness of C11: `sub` is created under the watched `/d` and gets
handle 2. -/
theorem C11_incremental_extension_witness :
    (process_event ⟨⟨5, 4, 3, 2, 0, 126⟩, fun _ => .mk true 2 (.other "f" .nil)⟩
        ⟨1, 0x40000100, 16, "sub"⟩
        ⟨false, none, [(1, "/d")], [], [], []⟩).watch_descriptors
      = [(1, "/d"), (2, "/d/sub")] :=
  (C11_incremental_extension ⟨⟨5, 4, 3, 2, 0, 126⟩, fun _ => .mk true 2 (.other "f" .nil)⟩
    ⟨1, 0x40000100, 16, "sub"⟩ ⟨false, none, [(1, "/d")], [], [], []⟩ "/d" 2
    (.other "f" .nil) (by decide) (by decide) (by decide) (by decide) rfl (by decide)
    (by decide) (by decide)).2

/-- Counterexample to C15 as stated: a DELETED record for a file, with a
name and with handle 9 that the table does not hold.  Its mask has neither
IN_CREATE nor IN_ISDIR, yet the table after the record has the additional
entry `9 -> ""`. -/
theorem C15_counterexample :
    (⟨9, 512, 16, "gone"⟩ : inotify_event).len ≠ 0
      ∧ ¬ ((512 : Nat) &&& IN_CREATE ≠ 0 ∧ (512 : Nat) &&& IN_ISDIR ≠ 0)
      ∧ (process_event ⟨⟨5, 4, 3, 2, 0, 126⟩, fun _ => .mk false 0 .nil⟩
          ⟨9, 512, 16, "gone"⟩ ⟨false, none, [(1, "/d")], [], [], []⟩).watch_descriptors
        = [(1, "/d"), (9, "")]
      ∧ (process_event ⟨⟨5, 4, 3, 2, 0, 126⟩, fun _ => .mk false 0 .nil⟩
          ⟨9, 512, 16, "gone"⟩ ⟨false, none, [(1, "/d")], [], [], []⟩).watch_descriptors
        ≠ (⟨false, none, [(1, "/d")], [], [], []⟩ : Monitor).watch_descriptors := by
  decide

/-- C15 (amended).  A record without a name leaves the watch table as it
was.  A record with a name whose mask does not have both IN_CREATE and
IN_ISDIR set leaves the table as it was when its handle is in the table; when
its handle is not in the table, reading `watch_descriptors[wd]` adds the one
entry `wd -> ""` and nothing else changes. -/
theorem C15_table_frame (env : Env) (event : inotify_event) (s : Monitor) :
    (event.len = 0 →
        (process_event env event s).watch_descriptors = s.watch_descriptors)
      ∧ (event.len ≠ 0 →
          ¬ (event.mask &&& IN_CREATE ≠ 0 ∧ event.mask &&& IN_ISDIR ≠ 0) →
          (∀ p, map_find s.watch_descriptors event.wd = some p →
              (process_event env event s).watch_descriptors = s.watch_descriptors)
            ∧ (map_find s.watch_descriptors event.wd = none →
              (process_event env event s).watch_descriptors
                = s.watch_descriptors ++ [(event.wd, "")])) := by
  constructor
  · intro hlen
    rw [process_event_no_name env event s hlen]
  · intro hlen hmask
    have hstep := process_event_named env event s hlen
    rw [classify_event_plain _ _ _ _ hmask] at hstep
    constructor
    · intro p hknown
      rw [hstep, log_message_watch_descriptors, map_index_known _ _ _ hknown]
    · intro hunknown
      rw [hstep, log_message_watch_descriptors, map_index_unknown _ _ hunknown]
      exact map_assign_fresh _ _ _ (map_find_none_not_mem _ _ hunknown)

/-- Witness of C15 (amended): a record without a name, a MOVED_TO record
for a directory under a known handle, and a DELETED record under an unknown
handle. -/
theorem C15_table_frame_witness :
    (process_event ⟨⟨5, 4, 3, 2, 0, 126⟩, fun _ => .mk false 0 .nil⟩ ⟨1, 4, 0, ""⟩
        ⟨false, none, [(1, "/d")], [], [], []⟩).watch_descriptors = [(1, "/d")]
      ∧ (process_event ⟨⟨5, 4, 3, 2, 0, 126⟩, fun _ => .mk false 0 .nil⟩
          ⟨1, 0x40000080, 16, "sub"⟩
          ⟨false, none, [(1, "/d")], [], [], []⟩).watch_descriptors = [(1, "/d")]
      ∧ (process_event ⟨⟨5, 4, 3, 2, 0, 126⟩, fun _ => .mk false 0 .nil⟩
          ⟨9, 512, 16, "gone"⟩
          ⟨false, none, [(1, "/d")], [], [], []⟩).watch_descriptors
        = [(1, "/d")] ++ [(9, "")] :=
  ⟨(C15_table_frame ⟨⟨5, 4, 3, 2, 0, 126⟩, fun _ => .mk false 0 .nil⟩ ⟨1, 4, 0, ""⟩
      ⟨false, none, [(1, "/d")], [], [], []⟩).1 (by decide),
   ((C15_table_frame ⟨⟨5, 4, 3, 2, 0, 126⟩, fun _ => .mk false 0 .nil⟩
      ⟨1, 0x40000080, 16, "sub"⟩ ⟨false, none, [(1, "/d")], [], [], []⟩).2
      (by decide) (by decide)).1 "/d" (by decide),
   ((C15_table_frame ⟨⟨5, 4, 3, 2, 0, 126⟩, fun _ => .mk false 0 .nil⟩
      ⟨9, 512, 16, "gone"⟩ ⟨false, none, [(1, "/d")], [], [], []⟩).2
      (by decide) (by decide)).2 (by decide)⟩

/-! ### The display renderer -/

theorem to_size_t_of_nonneg (x : Int) (h0 : 0 ≤ x) (hlt : x < 2 ^ 31) :
    Cxx.to_size_t x = x.toNat := by
  unfold Cxx.to_size_t
  rw [Int.emod_eq_of_lt h0 (by omega)]

theorem draw_loop_rows (max_y max_x : Int) :
    ∀ (remaining : List String) (line : Nat),
      line + remaining.length ≤ Cxx.to_size_t (max_y - 1) →
      (draw_loop max_y max_x remaining line).map (fun d => (d.line, d.entry))
        = remaining.enumFrom line
  | [], _, _ => by
    simp [draw_loop]
  | entry :: remaining, line, h => by
    simp only [List.length_cons] at h
    have hlt : line < Cxx.to_size_t (max_y - 1) := by omega
    simp only [draw_loop, if_pos hlt, List.map_cons, List.enumFrom_cons]
    rw [draw_loop_rows max_y max_x remaining (line + 1) (by omega)]

theorem draw_loop_mem (max_y max_x : Int) :
    ∀ (remaining : List String) (line : Nat) (d : DrawnEntry),
      d ∈ draw_loop max_y max_x remaining line →
      d.line < Cxx.to_size_t (max_y - 1) ∧ d.pair = color_pair d.entry
        ∧ d.prints = entry_prints d.line d.entry max_x
  | [], _, d, hd => by
    simp [draw_loop] at hd
  | entry :: remaining, line, d, hd => by
    simp only [draw_loop] at hd
    by_cases hlt : line < Cxx.to_size_t (max_y - 1)
    · rw [if_pos hlt] at hd
      rcases List.mem_cons.mp hd with heq | hrest
      · subst heq
        exact ⟨hlt, rfl, rfl⟩
      · exact draw_loop_mem max_y max_x remaining (line + 1) d hrest
    · rw [if_neg hlt] at hd
      cases hd

/-- C12 (the view tracks the tail).  For a terminal of height `max_y >= 3`
and a history of `n` entries, the entries drawn by `update_curses_display`
are the last `min n (max_y - 3)` entries of the history, in order, on the
rows 2, 3, 4, ... one after the other; every row used is above row
`max_y - 1`; when `max_y >= 4` and the history is not empty, the last
entry drawn is the newest entry of the history; and drawing an entry means
a call of `mvprintw` on the row of the entry, at column 0, with the entry
itself when it fits the width and otherwise with its first characters,
followed by a second call on the same row that prints `...`. -/
theorem C12_view_tracks_tail (s : Monitor) (max_y max_x : Int)
    (hheight : 3 ≤ max_y) (hint : max_y < 2 ^ 31) :
    (update_curses_display max_y max_x s).entries.map (fun d => (d.line, d.entry))
        = (s.log_history.drop
            (s.log_history.length - min s.log_history.length (max_y - 3).toNat)).enumFrom 2
      ∧ (∀ d ∈ (update_curses_display max_y max_x s).entries, (d.line : Int) < max_y - 1)
      ∧ (4 ≤ max_y → s.log_history ≠ [] →
          ((update_curses_display max_y max_x s).entries.map (fun d => d.entry)).getLast?
            = s.log_history.getLast?)
      ∧ (∀ d ∈ (update_curses_display max_y max_x s).entries,
          d.prints
            = if d.entry.length > Cxx.to_size_t max_x then
                [⟨d.line, 0, ⟨d.entry.data.take (Cxx.to_size_t (max_x - 3))⟩⟩,
                 ⟨d.line, max_x - 3, "..."⟩]
              else [⟨d.line, 0, d.entry⟩]) := by
  have hd : Cxx.to_size_t (max_y - 3) = (max_y - 3).toNat :=
    to_size_t_of_nonneg _ (by omega) (by omega)
  have hb : Cxx.to_size_t (max_y - 1) = (max_y - 1).toNat :=
    to_size_t_of_nonneg _ (by omega) (by omega)
  have hstart : (if s.log_history.length > Cxx.to_size_t (max_y - 3) then
        s.log_history.length - Cxx.to_size_t (max_y - 3) else 0)
      = s.log_history.length - min s.log_history.length (max_y - 3).toNat := by
    rw [hd]
    split <;> omega
  have hentries : (update_curses_display max_y max_x s).entries
      = draw_loop max_y max_x (s.log_history.drop
          (s.log_history.length - min s.log_history.length (max_y - 3).toNat)) 2 := by
    unfold update_curses_display
    simp only [hstart]
  have hrows := draw_loop_rows max_y max_x (s.log_history.drop
      (s.log_history.length - min s.log_history.length (max_y - 3).toNat)) 2
    (by rw [hb, List.length_drop]; omega)
  refine ⟨by rw [hentries, hrows], ?_, ?_, ?_⟩
  · intro d hmem
    rw [hentries] at hmem
    have hlt := (draw_loop_mem max_y max_x _ 2 d hmem).1
    rw [hb] at hlt
    omega
  rotate_left
  · intro d hmem
    rw [hentries] at hmem
    rw [(draw_loop_mem max_y max_x _ 2 d hmem).2.2]
    rfl
  · intro h4 hne
    have hmap : (update_curses_display max_y max_x s).entries.map (fun d => d.entry)
        = s.log_history.drop
            (s.log_history.length - min s.log_history.length (max_y - 3).toNat) := by
      have h2 := congrArg (List.map Prod.snd) (show _ = _ from
        (by rw [hentries, hrows] :
          (update_curses_display max_y max_x s).entries.map (fun d => (d.line, d.entry))
            = (s.log_history.drop (s.log_history.length
                - min s.log_history.length (max_y - 3).toNat)).enumFrom 2))
      simpa [List.map_map, Function.comp_def, List.enumFrom_map_snd] using h2
    rw [hmap, List.getLast?_drop]
    have hlen : 0 < s.log_history.length := List.length_pos.mpr hne
    have hk : ¬ s.log_history.length
        ≤ s.log_history.length - min s.log_history.length (max_y - 3).toNat := by
      omega
    rw [if_neg hk]

/-- Witness of C12: five entries on a terminal of six rows; the last three
are drawn on rows 2, 3, 4, each by one call at column 0. -/
theorem C12_view_tracks_tail_witness :
    (update_curses_display 6 80
        ⟨true, none, [], ["a", "b", "c", "d", "e"], [], []⟩).entries.map
        (fun d => (d.line, d.entry))
      = [(2, "c"), (3, "d"), (4, "e")]
    ∧ (⟨4, "e", 0, [⟨4, 0, "e"⟩]⟩ : DrawnEntry).prints
      = if (⟨4, "e", 0, [⟨4, 0, "e"⟩]⟩ : DrawnEntry).entry.length > Cxx.to_size_t 80 then
          [⟨4, 0, ⟨"e".data.take (Cxx.to_size_t (80 - 3))⟩⟩, ⟨4, 80 - 3, "..."⟩]
        else [⟨4, 0, "e"⟩] :=
  ⟨(C12_view_tracks_tail ⟨true, none, [], ["a", "b", "c", "d", "e"], [], []⟩ 6 80
      (by decide) (by decide)).1,
   (C12_view_tracks_tail ⟨true, none, [], ["a", "b", "c", "d", "e"], [], []⟩ 6 80
      (by decide) (by decide)).2.2.2 ⟨4, "e", 0, [⟨4, 0, "e"⟩]⟩ (by decide)⟩

/-- C14 (truncation with ellipsis).  On a terminal of width `max_x >= 3`,
an entry longer than `max_x` is drawn by two calls on its row: its first
`max_x - 3` characters at column 0 and `...` at column `max_x - 3`, the
column right after them, `max_x` characters in all; an entry of length at
most `max_x` is drawn whole by one call at column 0. -/
theorem C14_truncation (s : Monitor) (max_y max_x : Int)
    (hwidth : 3 ≤ max_x) (hint : max_x < 2 ^ 31) :
    ∀ d ∈ (update_curses_display max_y max_x s).entries,
      ((d.entry.length : Int) > max_x →
          d.prints = [⟨d.line, 0, ⟨d.entry.data.take (max_x - 3).toNat⟩⟩,
                      ⟨d.line, max_x - 3, "..."⟩]
            ∧ ((⟨d.entry.data.take (max_x - 3).toNat⟩ : String).length : Int) = max_x - 3
            ∧ (((⟨d.entry.data.take (max_x - 3).toNat⟩ : String) ++ "...").length : Int)
                = max_x)
        ∧ ((d.entry.length : Int) ≤ max_x → d.prints = [⟨d.line, 0, d.entry⟩]) := by
  intro d hmem
  have hprints : d.prints = entry_prints d.line d.entry max_x := by
    unfold update_curses_display at hmem
    exact (draw_loop_mem max_y max_x _ 2 d hmem).2.2
  have hx : Cxx.to_size_t max_x = max_x.toNat := to_size_t_of_nonneg _ (by omega) hint
  have hx3 : Cxx.to_size_t (max_x - 3) = (max_x - 3).toNat :=
    to_size_t_of_nonneg _ (by omega) (by omega)
  constructor
  · intro hlong
    have hgt : d.entry.length > Cxx.to_size_t max_x := by
      rw [hx]
      omega
    refine ⟨?_, ?_, ?_⟩
    · rw [hprints]
      unfold entry_prints StdString.substr0
      rw [if_pos hgt, hx3]
    · have hlen : d.entry.data.length = d.entry.length := rfl
      simp only [String.length, List.length_take]
      omega
    · have hlen : d.entry.data.length = d.entry.length := rfl
      have happ : ((⟨d.entry.data.take (max_x - 3).toNat⟩ : String) ++ "...").length
          = (d.entry.data.take (max_x - 3).toNat).length + 3 := by
        rw [String.length_append]
        rfl
      rw [happ, List.length_take]
      omega
  · intro hshort
    have hle : ¬ d.entry.length > Cxx.to_size_t max_x := by
      rw [hx]
      omega
    rw [hprints]
    unfold entry_prints
    rw [if_neg hle]

/-- Witness of C14: a terminal of width 8 with one entry of 10 characters
and one of 5. -/
theorem C14_truncation_witness :
    (⟨2, "0123456789", 0, [⟨2, 0, "01234"⟩, ⟨2, 5, "..."⟩]⟩ : DrawnEntry)
        ∈ (update_curses_display 24 8
            ⟨true, none, [], ["0123456789", "short"], [], []⟩).entries
      ∧ (⟨2, "0123456789", 0, [⟨2, 0, "01234"⟩, ⟨2, 5, "..."⟩]⟩ : DrawnEntry).prints
          = [⟨2, 0, ⟨"0123456789".data.take (8 - 3 : Int).toNat⟩⟩, ⟨2, 8 - 3, "..."⟩]
      ∧ (⟨3, "short", 0, [⟨3, 0, "short"⟩]⟩ : DrawnEntry).prints = [⟨3, 0, "short"⟩] :=
  ⟨by decide,
   ((C14_truncation ⟨true, none, [], ["0123456789", "short"], [], []⟩ 24 8
      (by decide) (by decide)
      ⟨2, "0123456789", 0, [⟨2, 0, "01234"⟩, ⟨2, 5, "..."⟩]⟩ (by decide)).1 (by decide)).1,
   (C14_truncation ⟨true, none, [], ["0123456789", "short"], [], []⟩ 24 8
      (by decide) (by decide)
      ⟨3, "short", 0, [⟨3, 0, "short"⟩]⟩ (by decide)).2 (by decide)⟩

/-! ### Searching a string -/

theorem find_from_none (pattern : List Char) :
    ∀ (str : List Char) (pos : Nat),
      StdString.find_from pattern str pos = none ↔ ¬ pattern <:+: str
  | [], pos => by
    simp only [StdString.find_from, List.infix_nil]
    by_cases hp : pattern = []
    · simp [hp]
    · simp [hp]
  | c :: rest, pos => by
    simp only [StdString.find_from, List.infix_cons_iff]
    by_cases hpre : pattern.isPrefixOf (c :: rest) = true
    · rw [if_pos hpre]
      have := List.isPrefixOf_iff_prefix.mp hpre
      simp [this]
    · rw [if_neg hpre, find_from_none pattern rest (pos + 1)]
      have hnot : ¬ pattern <+: c :: rest := fun h => hpre (List.isPrefixOf_iff_prefix.mpr h)
      simp [hnot]

theorem find_none_iff (str pattern : String) :
    StdString.find str pattern = none ↔ ¬ pattern.data <:+: str.data := by
  unfold StdString.find
  exact find_from_none pattern.data str.data 0

/-- A word that a prefix of `front ++ c :: back` spells without using `c`
lies inside `front`. -/
theorem prefix_before_separator (c : Char) (back : List Char) :
    ∀ (front word : List Char), c ∉ word → word <+: front ++ c :: back → word <+: front
  | [], word, hc, h => by
    rcases List.prefix_cons_iff.mp h with hnil | ⟨t, ht, _⟩
    · rw [hnil]
    · rw [ht] at hc
      exact absurd (List.mem_cons_self c t) hc
  | x :: front, word, hc, h => by
    rcases List.prefix_cons_iff.mp h with hnil | ⟨t, ht, hrest⟩
    · rw [hnil]
      exact List.nil_prefix
    · rw [ht] at hc ⊢
      have ht' : c ∉ t := fun hmem => hc (List.mem_cons_of_mem _ hmem)
      exact List.prefix_cons_inj x |>.mpr (prefix_before_separator c back front t ht' hrest)

/-- A word without the character `c` occurs in `front ++ c :: back` only if
it occurs in `front` or in `back`. -/
theorem infix_split (c : Char) (back word : List Char) (hc : c ∉ word) :
    ∀ (front : List Char), word <:+: front ++ c :: back → word <:+: front ∨ word <:+: back
  | [], h => by
    rcases List.infix_cons_iff.mp h with hpre | hin
    · exact Or.inl (prefix_before_separator c back [] word hc hpre).isInfix
    · exact Or.inr hin
  | x :: front, h => by
    rcases List.infix_cons_iff.mp h with hpre | hin
    · exact Or.inl (prefix_before_separator c back (x :: front) word hc hpre).isInfix
    · rcases infix_split c back word hc front hin with h1 | h2
      · exact Or.inl (List.infix_cons_iff.mpr (Or.inr h1))
      · exact Or.inr h2

/-! ### The characters of a timestamp -/

theorem digitChar_not_upper : ∀ m, m < 10 → (Nat.digitChar m).isUpper = false := by
  decide

theorem toDigitsCore_not_upper :
    ∀ (fuel n : Nat) (ds : List Char), (∀ c ∈ ds, c.isUpper = false) →
      ∀ c ∈ Nat.toDigitsCore 10 fuel n ds, c.isUpper = false
  | 0, _, ds, hds => by
    simpa [Nat.toDigitsCore] using hds
  | fuel + 1, n, ds, hds => by
    have hd : (Nat.digitChar (n % 10)).isUpper = false :=
      digitChar_not_upper (n % 10) (Nat.mod_lt n (by decide))
    have hds' : ∀ c ∈ Nat.digitChar (n % 10) :: ds, c.isUpper = false := by
      intro c hc
      rcases List.mem_cons.mp hc with h | h
      · rw [h]
        exact hd
      · exact hds c h
    simp only [Nat.toDigitsCore]
    split
    · exact hds'
    · exact toDigitsCore_not_upper fuel (n / 10) _ hds'

theorem toString_not_upper (n : Nat) : ∀ c ∈ (toString n).data, c.isUpper = false := by
  show ∀ c ∈ (Nat.toDigits 10 n).asString.data, c.isUpper = false
  exact toDigitsCore_not_upper (n + 1) n [] (by simp)

theorem two_digits_not_upper (n : Nat) : ∀ c ∈ (two_digits n).data, c.isUpper = false := by
  intro c hc
  unfold two_digits at hc
  split at hc
  · simp only [String.data_append, List.mem_append] at hc
    rcases hc with h | h
    · have hz : c = '0' := by simpa using h
      rw [hz]
      decide
    · exact toString_not_upper n c h
  · exact toString_not_upper n c hc

theorem get_current_time_not_upper (timeinfo : Tm) :
    ∀ c ∈ (get_current_time timeinfo).data, c.isUpper = false := by
  intro c hc
  unfold get_current_time at hc
  simp only [String.data_append, List.mem_append] at hc
  have hsep : ∀ (sep : String), sep ∈ ["[", "-", " ", ":", "]"] → c ∈ sep.data →
      c.isUpper = false := by
    intro sep hsep hmem
    simp only [List.mem_cons, List.mem_singleton, List.not_mem_nil, or_false] at hsep
    rcases hsep with h | h | h | h | h <;> subst h <;>
      (have hz := List.mem_singleton.mp hmem; rw [hz]; decide)
  rcases hc with ((((((((((((h | h) | h) | h) | h) | h) | h) | h) | h) | h) | h) | h) | h)
  · exact hsep "[" (by simp) h
  · exact toString_not_upper _ c h
  · exact hsep "-" (by simp) h
  · exact two_digits_not_upper _ c h
  · exact hsep "-" (by simp) h
  · exact two_digits_not_upper _ c h
  · exact hsep " " (by simp) h
  · exact two_digits_not_upper _ c h
  · exact hsep ":" (by simp) h
  · exact two_digits_not_upper _ c h
  · exact hsep ":" (by simp) h
  · exact two_digits_not_upper _ c h
  · exact hsep "]" (by simp) h

/-! ### Keywords in an event line -/

theorem keyword_facts :
    ∀ kw ∈ scan_keywords,
      ' ' ∉ kw.data ∧ ':' ∉ kw.data
        ∧ kw.data.head?.map Char.isUpper = some true
        ∧ ¬ kw.data <:+: "directory".data ∧ ¬ kw.data <:+: "file".data := by
  decide

theorem event_line_data (stamp kind d path : String) :
    (stamp ++ " " ++ kind ++ " " ++ d ++ ": " ++ path).data
      = stamp.data ++ ' ' :: (kind.data ++ ' ' :: (d.data ++ ':' :: ([] ++ ' ' :: path.data))) := by
  simp [String.data_append, List.append_assoc]

/-- A keyword occurs in an event line only inside the kind or inside the
path: the timestamp has no capital letter, `directory` and `file` hold no
keyword, and no keyword contains a space or a colon. -/
theorem keyword_in_line (timeinfo : Tm) (kind d path kw : String)
    (hkw : kw ∈ scan_keywords) (hd : d = "directory" ∨ d = "file")
    (hin : kw.data <:+: (get_current_time timeinfo ++ " " ++ kind ++ " " ++ d ++ ": "
      ++ path).data) :
    kw.data <:+: kind.data ∨ kw.data <:+: path.data := by
  obtain ⟨hspace, hcolon, hupper, hdir, hfile⟩ := keyword_facts kw hkw
  rw [event_line_data] at hin
  rcases infix_split ' ' _ kw.data hspace _ hin with hstamp | hrest
  · exfalso
    cases hdata : kw.data with
    | nil => rw [hdata] at hupper; simp at hupper
    | cons c t =>
      rw [hdata] at hupper hstamp
      have hc : c.isUpper = true := by simpa using hupper
      have hmem : c ∈ (get_current_time timeinfo).data :=
        hstamp.subset (List.mem_cons_self c t)
      rw [get_current_time_not_upper timeinfo c hmem] at hc
      cases hc
  · rcases infix_split ' ' _ kw.data hspace _ hrest with hkind | hrest2
    · exact Or.inl hkind
    · rcases infix_split ':' _ kw.data hcolon _ hrest2 with hword | hrest3
      · exfalso
        rcases hd with h | h
        · rw [h] at hword
          exact hdir hword
        · rw [h] at hword
          exact hfile hword
      · rcases infix_split ' ' _ kw.data hspace _ hrest3 with hnil | hpath
        · exfalso
          have hempty : kw.data = [] := List.infix_nil.mp hnil
          rw [hempty] at hupper
          simp at hupper
        · exact Or.inr hpath

theorem keyword_of_kind_in_line (stamp kind d path kw : String)
    (hin : kw.data <:+: kind.data) :
    StdString.find (stamp ++ " " ++ kind ++ " " ++ d ++ ": " ++ path) kw ≠ none := by
  intro hnone
  apply (find_none_iff _ _).mp hnone
  rw [event_line_data]
  have h1 : kind.data <:+: stamp.data ++ ' ' ::
      (kind.data ++ ' ' :: (d.data ++ ':' :: ([] ++ ' ' :: path.data))) := by
    have := List.infix_append (stamp.data ++ [' ']) kind.data
      (' ' :: (d.data ++ ':' :: ([] ++ ' ' :: path.data)))
    simpa [List.append_assoc] using this
  exact hin.trans h1

theorem keyword_not_in_line (timeinfo : Tm) (kind d path kw : String)
    (hkw : kw ∈ scan_keywords) (hd : d = "directory" ∨ d = "file")
    (hkind : ¬ kw.data <:+: kind.data) (hpath : StdString.find path kw = none) :
    ¬ StdString.find (get_current_time timeinfo ++ " " ++ kind ++ " " ++ d ++ ": " ++ path) kw
      ≠ none := by
  intro hfound
  have hin : kw.data <:+: (get_current_time timeinfo ++ " " ++ kind ++ " " ++ d ++ ": "
      ++ path).data := by
    by_contra hnot
    exact hfound ((find_none_iff _ _).mpr hnot)
  rcases keyword_in_line timeinfo kind d path kw hkw hd hin with h | h
  · exact hkind h
  · exact (find_none_iff _ _).mp hpath h

theorem dir_or_file_cases (mask : Nat) :
    dir_or_file mask = "directory" ∨ dir_or_file mask = "file" := by
  unfold dir_or_file
  split
  · exact Or.inl rfl
  · exact Or.inr rfl

/-- Counterexample to C13 as stated: the file `CREATED.txt` is deleted in
the watched `/d`.  The decoder logs a DELETED line, whose colour should be
pair 2, but the line contains `CREATED` in its path and is drawn with
pair 1. -/
theorem C13_counterexample :
    (process_event ⟨⟨5, 4, 3, 2, 0, 126⟩, fun _ => .mk false 0 .nil⟩
        ⟨1, 512, 16, "CREATED.txt"⟩ ⟨true, none, [(1, "/d")], [], [], []⟩).log_history
      = ["[2026-01-02 03:04:05] DELETED file: /d/CREATED.txt"]
    ∧ first_matching_kind 512 = "DELETED"
    ∧ kind_pair "DELETED" = 2
    ∧ (update_curses_display 24 80
        (process_event ⟨⟨5, 4, 3, 2, 0, 126⟩, fun _ => .mk false 0 .nil⟩
          ⟨1, 512, 16, "CREATED.txt"⟩
          ⟨true, none, [(1, "/d")], [], [], []⟩)).entries.map (fun d => d.pair) = [1]
    ∧ color_pair "[2026-01-02 03:04:05] DELETED file: /d/CREATED.txt"
        ≠ kind_pair (first_matching_kind 512) := by
  decide

/-- C13 (amended).  For an event line in the decoder's format whose path
contains none of the keywords that `update_curses_display` searches for
before it reaches the keyword of the line's own kind (for UNKNOWN: none of
the five keywords), the colour pair selected is the one of the kind: CREATED
1, DELETED 2, MODIFIED 3, MOVED_FROM and MOVED_TO 4, ATTRIBUTES_CHANGED 5,
UNKNOWN none. Every entry drawn is given the pair selected for it. -/
theorem C13_colour_of_kind (timeinfo : Tm) (mask : Nat) (fullpath : String)
    (hpath : ∀ kw ∈ keywords_before (first_matching_kind mask),
      StdString.find fullpath kw = none) :
    color_pair (get_current_time timeinfo ++ " " ++ first_matching_kind mask ++ " "
        ++ dir_or_file mask ++ ": " ++ fullpath)
      = kind_pair (first_matching_kind mask)
    ∧ ∀ (s : Monitor) (max_y max_x : Int),
        ∀ d ∈ (update_curses_display max_y max_x s).entries,
          d.entry = get_current_time timeinfo ++ " " ++ first_matching_kind mask ++ " "
            ++ dir_or_file mask ++ ": " ++ fullpath →
          d.pair = kind_pair (first_matching_kind mask) := by
  have hcolour : color_pair (get_current_time timeinfo ++ " " ++ first_matching_kind mask
        ++ " " ++ dir_or_file mask ++ ": " ++ fullpath)
      = kind_pair (first_matching_kind mask) := by
    have hkind := first_matching_kind_mem mask
    have hd := dir_or_file_cases mask
    generalize first_matching_kind mask = kind at hkind hpath ⊢
    generalize dir_or_file mask = d at hd ⊢
    have absent : ∀ kw ∈ scan_keywords, ¬ kw.data <:+: kind.data →
        StdString.find fullpath kw = none →
        ¬ StdString.find (get_current_time timeinfo ++ " " ++ kind ++ " " ++ d ++ ": "
          ++ fullpath) kw ≠ none :=
      fun kw hkw hk hp => keyword_not_in_line timeinfo kind d fullpath kw hkw hd hk hp
    have present : ∀ kw : String, kw.data <:+: kind.data →
        StdString.find (get_current_time timeinfo ++ " " ++ kind ++ " " ++ d ++ ": "
          ++ fullpath) kw ≠ none :=
      fun kw hk => keyword_of_kind_in_line _ kind d fullpath kw hk
    simp only [all_kinds, List.mem_cons, List.mem_singleton, List.not_mem_nil,
      or_false] at hkind
    unfold color_pair
    rcases hkind with h | h | h | h | h | h | h <;> subst h
    · rw [if_pos (present "CREATED" (by decide))]
      rfl
    · rw [if_neg (absent "CREATED" (by decide) (by decide) (hpath _ (by decide))),
        if_pos (present "DELETED" (by decide))]
      rfl
    · rw [if_neg (absent "CREATED" (by decide) (by decide) (hpath _ (by decide))),
        if_neg (absent "DELETED" (by decide) (by decide) (hpath _ (by decide))),
        if_pos (present "MODIFIED" (by decide))]
      rfl
    · rw [if_neg (absent "CREATED" (by decide) (by decide) (hpath _ (by decide))),
        if_neg (absent "DELETED" (by decide) (by decide) (hpath _ (by decide))),
        if_neg (absent "MODIFIED" (by decide) (by decide) (hpath _ (by decide))),
        if_pos (present "MOVED" (by decide))]
      rfl
    · rw [if_neg (absent "CREATED" (by decide) (by decide) (hpath _ (by decide))),
        if_neg (absent "DELETED" (by decide) (by decide) (hpath _ (by decide))),
        if_neg (absent "MODIFIED" (by decide) (by decide) (hpath _ (by decide))),
        if_pos (present "MOVED" (by decide))]
      rfl
    · rw [if_neg (absent "CREATED" (by decide) (by decide) (hpath _ (by decide))),
        if_neg (absent "DELETED" (by decide) (by decide) (hpath _ (by decide))),
        if_neg (absent "MODIFIED" (by decide) (by decide) (hpath _ (by decide))),
        if_neg (absent "MOVED" (by decide) (by decide) (hpath _ (by decide))),
        if_pos (present "ATTRIBUTES" (by decide))]
      rfl
    · rw [if_neg (absent "CREATED" (by decide) (by decide) (hpath _ (by decide))),
        if_neg (absent "DELETED" (by decide) (by decide) (hpath _ (by decide))),
        if_neg (absent "MODIFIED" (by decide) (by decide) (hpath _ (by decide))),
        if_neg (absent "MOVED" (by decide) (by decide) (hpath _ (by decide))),
        if_neg (absent "ATTRIBUTES" (by decide) (by decide) (hpath _ (by decide)))]
      rfl
  refine ⟨hcolour, ?_⟩
  intro s max_y max_x d hmem hentry
  have hpair : d.pair = color_pair d.entry := by
    unfold update_curses_display at hmem
    exact (draw_loop_mem max_y max_x _ 2 d hmem).2.1
  rw [hpair, hentry, hcolour]

/-- Witness of C13 (amended): a MOVED_TO line whose path holds the later
keyword ATTRIBUTES but none of CREATED, DELETED, MODIFIED. -/
theorem C13_colour_of_kind_witness :
    color_pair (get_current_time ⟨5, 4, 3, 2, 0, 126⟩ ++ " " ++ first_matching_kind 128 ++ " "
        ++ dir_or_file 128 ++ ": " ++ "/d/ATTRIBUTES.md")
      = kind_pair (first_matching_kind 128) :=
  (C13_colour_of_kind ⟨5, 4, 3, 2, 0, 126⟩ 128 "/d/ATTRIBUTES.md" (by decide)).1

end Dirmon

namespace Filesearch

/-! ## Theorems on the file search -/

/-! ### The inner scan -/

theorem scan_for_absent (p : Char) :
    ∀ (str_rest : List Char) (consecutive : Nat), p ∉ str_rest →
      ∃ c' rest', scan_for p str_rest consecutive = (false, c', rest')
  | [], consecutive, _ => ⟨consecutive, [], rfl⟩
  | c :: rest, consecutive, h => by
    simp only [List.mem_cons, not_or] at h
    have hne : ¬ c = p := fun heq => h.1 heq.symm
    simp only [scan_for, if_neg hne]
    exact scan_for_absent p rest 0 h.2

theorem scan_for_present (p : Char) :
    ∀ (str_rest : List Char) (consecutive : Nat), p ∈ str_rest →
      ∃ skipped rest' c', scan_for p str_rest consecutive = (true, c', rest')
        ∧ str_rest = skipped ++ p :: rest' ∧ p ∉ skipped ∧ c' ≤ consecutive + 1
  | [], _, h => by cases h
  | c :: rest, consecutive, h => by
    by_cases heq : c = p
    · refine ⟨[], rest, (consecutive + 1) % 2 ^ 64, ?_, ?_, ?_, ?_⟩
      · simp only [scan_for, if_pos heq]
      · rw [heq]
        rfl
      · simp
      · exact Nat.mod_le _ _
    · have hrest : p ∈ rest := by
        rcases List.mem_cons.mp h with h1 | h1
        · exact absurd h1.symm heq
        · exact h1
      obtain ⟨skipped, rest', c', hscan, hsplit, hskip, hc⟩ :=
        scan_for_present p rest 0 hrest
      refine ⟨c :: skipped, rest', c', ?_, ?_, ?_, ?_⟩
      · simp only [scan_for, if_neg heq]
        exact hscan
      · rw [hsplit]
        rfl
      · simp only [List.mem_cons, not_or]
        exact ⟨fun h1 => heq h1.symm, hskip⟩
      · omega

/-- Matching the first pattern character at its first occurrence loses no
match of the rest of the pattern. -/
theorem sublist_after_first (p : Char) (pattern_rest rest' : List Char) :
    ∀ (skipped : List Char), p ∉ skipped →
      ((p :: pattern_rest).Sublist (skipped ++ p :: rest') ↔ pattern_rest.Sublist rest')
  | [], _ => by
    simp only [List.nil_append]
    exact List.cons_sublist_cons
  | x :: skipped, h => by
    simp only [List.mem_cons, not_or] at h
    have ih := sublist_after_first p pattern_rest rest' skipped h.2
    constructor
    · intro hsub
      rcases List.sublist_cons_iff.mp hsub with h1 | ⟨r, hr, _⟩
      · exact ih.mp h1
      · cases hr
        exact absurd rfl h.1
    · intro hsub
      exact List.Sublist.cons x (ih.mpr hsub)

/-! ### The scoring loop -/

theorem fuzzy_loop_no_match :
    ∀ (pattern_rest str_rest : List Char) (consecutive : Nat) (score : Int),
      ¬ pattern_rest.Sublist str_rest →
      fuzzy_loop pattern_rest str_rest consecutive score = 0
  | [], str_rest, _, _, h => absurd (List.nil_sublist str_rest) h
  | p :: pattern_rest, str_rest, consecutive, score, h => by
    by_cases hmem : p ∈ str_rest
    · obtain ⟨skipped, rest', c', hscan, hsplit, hskip, _⟩ :=
        scan_for_present p str_rest consecutive hmem
      simp only [fuzzy_loop, hscan]
      apply fuzzy_loop_no_match
      intro hsub
      apply h
      rw [hsplit]
      exact (sublist_after_first p pattern_rest rest' skipped hskip).mpr hsub
    · obtain ⟨c', rest', hscan⟩ := scan_for_absent p str_rest consecutive hmem
      simp only [fuzzy_loop, hscan]

theorem score_step (score : Int) (inc : Nat) (h0 : 0 ≤ score)
    (hb : score + inc < 2 ^ 31) :
    Cxx.to_int ((Cxx.to_size_t score + inc) % 2 ^ 64) = score + inc := by
  have hs : Cxx.to_size_t score = score.toNat := by
    unfold Cxx.to_size_t
    rw [Int.emod_eq_of_lt h0 (by omega)]
  rw [hs]
  unfold Cxx.to_int
  have hsum : score.toNat + inc < 2 ^ 31 := by omega
  have h64 : (score.toNat + inc) % 2 ^ 64 = score.toNat + inc :=
    Nat.mod_eq_of_lt (by omega)
  have h32 : (score.toNat + inc) % 2 ^ 32 = score.toNat + inc :=
    Nat.mod_eq_of_lt (by omega)
  rw [h64, h32, if_pos hsum]
  omega

theorem fuzzy_loop_match :
    ∀ (pattern_rest str_rest : List Char) (consecutive : Nat) (score : Int),
      pattern_rest.Sublist str_rest → 0 ≤ score →
      consecutive + pattern_rest.length ≤ 800 →
      score + pattern_rest.length * 4010 < 2 ^ 31 →
      score + 10 * pattern_rest.length ≤ fuzzy_loop pattern_rest str_rest consecutive score
  | [], _, _, score, _, _, _, _ => by
    simp [fuzzy_loop]
  | p :: pattern_rest, str_rest, consecutive, score, hsub, h0, hc, hb => by
    have hmem : p ∈ str_rest := hsub.subset (List.mem_cons_self p pattern_rest)
    obtain ⟨skipped, rest', c', hscan, hsplit, hskip, hc'⟩ :=
      scan_for_present p str_rest consecutive hmem
    rw [hsplit] at hsub
    have hsub' := (sublist_after_first p pattern_rest rest' skipped hskip).mp hsub
    simp only [List.length_cons] at hc hb
    push_cast at hb
    have hstep := score_step score (10 + c' * 5) h0 (by push_cast; omega)
    simp only [fuzzy_loop, hscan]
    rw [hstep]
    have ih := fuzzy_loop_match pattern_rest rest' c' (score + ((10 + c' * 5 : Nat) : Int))
      hsub' (by omega) (by omega) (by push_cast; omega)
    simp only [List.length_cons]
    push_cast at ih ⊢
    omega

/-! ### Searching for the whole pattern -/

theorem find_from_some (pattern : List Char) :
    ∀ (str : List Char) (start pos : Nat),
      StdString.find_from pattern str start = some pos →
      pattern <:+: str ∧ pos + pattern.length ≤ start + str.length
        ∧ (pattern = [] → pos = start)
  | [], start, pos, h => by
    simp only [StdString.find_from] at h
    by_cases hp : pattern = []
    · rw [if_pos hp] at h
      cases h
      subst hp
      exact ⟨List.infix_refl _, by simp, fun _ => rfl⟩
    · rw [if_neg hp] at h
      cases h
  | c :: rest, start, pos, h => by
    simp only [StdString.find_from] at h
    by_cases hpre : pattern.isPrefixOf (c :: rest) = true
    · rw [if_pos hpre] at h
      cases h
      have hp := List.isPrefixOf_iff_prefix.mp hpre
      exact ⟨hp.isInfix, by have := hp.length_le; omega, fun _ => rfl⟩
    · rw [if_neg hpre] at h
      obtain ⟨hin, hlen, hnil⟩ := find_from_some pattern rest (start + 1) pos h
      refine ⟨List.infix_cons_iff.mpr (Or.inr hin), ?_, ?_⟩
      · simp only [List.length_cons]
        omega
      · intro hp
        exfalso
        apply hpre
        rw [hp]
        rfl

/-- Within the first 800 characters the code agrees with C16: for a name of
at most 800 characters the score is positive exactly when the lower-cased
pattern is a subsequence of the lower-cased name. -/
theorem fuzzy_match_score_pos_iff (name search_term : String)
    (hlen : name.length ≤ 800) :
    fuzzy_match_score name search_term > 0 ↔ subsequence_match name search_term := by
  have hnamelen : (name.data.map tolower).length ≤ 800 := by
    rw [List.length_map]
    exact hlen
  unfold fuzzy_match_score subsequence_match
  simp only []
  by_cases heq : name.data.map tolower = search_term.data.map tolower
  · rw [if_pos heq, heq]
    exact ⟨fun _ => List.Sublist.refl _, fun _ => by decide⟩
  · rw [if_neg heq]
    cases hfind : StdString.find_from (search_term.data.map tolower)
        (name.data.map tolower) 0 with
    | some pos =>
      obtain ⟨hin, hpos, hnil⟩ := find_from_some _ _ 0 pos hfind
      have hlt : pos < 800 := by
        by_cases hp : search_term.data.map tolower = []
        · have := hnil hp
          omega
        · have : 0 < (search_term.data.map tolower).length := List.length_pos.mpr hp
          omega
      have hval : Cxx.to_int ((800 + 2 ^ 64 - pos) % 2 ^ 64) = 800 - (pos : Int) := by
        have h1 : (800 + 2 ^ 64 - pos) % 2 ^ 64 = 800 - pos := by
          have : 800 + 2 ^ 64 - pos = (800 - pos) + 2 ^ 64 := by omega
          rw [this, Nat.add_mod_right]
          exact Nat.mod_eq_of_lt (by omega)
        rw [h1]
        unfold Cxx.to_int
        have h32 : (800 - pos) % 2 ^ 32 = 800 - pos := Nat.mod_eq_of_lt (by omega)
        rw [h32, if_pos (by omega)]
        omega
      simp only [hval]
      exact ⟨fun _ => hin.sublist, fun _ => by omega⟩
    | none =>
      simp only []
      have hne : search_term.data.map tolower ≠ [] := by
        intro hp
        have hnot := (Dirmon.find_from_none _ _ 0).mp hfind
        apply hnot
        rw [hp]
        exact List.nil_infix
      have hposlen : 0 < (search_term.data.map tolower).length := List.length_pos.mpr hne
      constructor
      · intro hscore
        by_contra hsub
        rw [fuzzy_loop_no_match _ _ 0 0 hsub] at hscore
        exact absurd hscore (by decide)
      · intro hsub
        have hle := hsub.length_le
        have hbound := fuzzy_loop_match _ _ 0 0 hsub (le_refl 0) (by omega)
          (by push_cast; omega)
        push_cast at hbound
        omega

/-- Witness for the agreement within 800 characters. -/
theorem fuzzy_match_score_pos_iff_witness :
    fuzzy_match_score "Makefile" "mkf" > 0 ↔ subsequence_match "Makefile" "mkf" :=
  fuzzy_match_score_pos_iff "Makefile" "mkf" (by decide)

set_option maxRecDepth 100000 in
/-- C16 at the failing input.  The name is 800 times `a` followed by `b` and
the pattern is `b`: the pattern occurs in the name, at position 800, so it is
a subsequence of it, but `800 - pos` is 0, the score is not positive and
`main` leaves the file out of the results. -/
theorem C16_substring_at_800_dropped :
    fuzzy_match_score ⟨List.replicate 800 'a' ++ ['b']⟩ "b" = 0
      ∧ listed ⟨List.replicate 800 'a' ++ ['b']⟩ "b" = false
      ∧ subsequence_match ⟨List.replicate 800 'a' ++ ['b']⟩ "b" := by
  refine ⟨by decide, by decide, ?_⟩
  show List.Sublist [tolower 'b'] ((List.replicate 800 'a' ++ ['b']).map tolower)
  exact List.singleton_sublist.mpr
    (List.mem_map_of_mem tolower (List.mem_append_right _ (List.mem_singleton_self 'b')))

end Filesearch
